import Mathlib

/-!
Verification of the jellyfin-tuner gateway (src/lib of the repository).

The development shallowly embeds the JavaScript source:

* `src/lib/stream.js` (tuner half, `acquireTuner`, `discoverTuners`) — the
  tuner arbiter: round-robin free search, preemption, wait-then-retry;
* `src/lib/stream.js` (stream half, `handleStream` / `cleanup`) — the
  live-stream session teardown state machine;
* `src/lib/epg.js` — the EPG orchestrator (`grab`) and the MPEG-TS /
  ATSC / DVB table parser (`parseEIT`, `handleCompleteSection`,
  `parseEITSection`, `parseATSCVCT`, `parseATSCEIT`, `parseATSCEET`,
  `parseDVBEIT`, `parseDVBTime`), together with the sqlite program store
  (`db.js`) modelled as a list of rows and a small database-operation
  language.

JavaScript numeric bitwise expressions are translated to Nat arithmetic:
for byte values b (0 ≤ b < 256 by Buffer semantics) the source expressions
`(x & 0x0F)`, `(x & 0x3F)`, `x >> k`, `x << k`, `a | b` (on disjoint bit
ranges) are rendered as `x % 16`, `x % 64`, `x / 2^k`, `x * 2^k`, `a + b`.
Out-of-range Buffer indexing (which yields `undefined` in JS) is rendered
with `List.getD _ _ 0`; every concrete input used below keeps all reads
in bounds, where the two semantics agree.  Source `for` and `while` loops
are rendered as structural recursion on an explicit iteration-count bound
taken from the loop header, so that all definitions evaluate by kernel
reduction.
-/

set_option maxRecDepth 4000

namespace JFT

/-! ## Tuner arbiter (src/lib/stream.js, tuner half, lines 151-247) -/

/-- Which workload currently holds a tuner's lease.  The JS tuner record
does not store this (`usageType` is only ever cleared); it is carried here
as ghost data so that pool states can be classified by the lease that
created them. -/
inductive LeaseKind
  | live
  | epg
  | dvr
deriving DecidableEq, Repr

/-- One entry of the `TUNERS` array.  `inUse` and `epgScanning` are the JS
fields consulted by `acquireTuner`; `hasKillSwitch` records whether
`tuner.killSwitch` is set (a live session assigns it at stream.js:77 and
nothing ever clears it); `kind` is the ghost lease annotation. -/
structure Tuner where
  id : Nat
  inUse : Bool
  epgScanning : Bool
  hasKillSwitch : Bool
  kind : LeaseKind
deriving DecidableEq, Repr

def dummyTuner : Tuner := ⟨0, false, false, false, .live⟩

/-- The module-level state of the tuner half of stream.js: the `TUNERS`
array and `lastTunerIndex` (initially `-1`). -/
structure Pool where
  tuners : List Tuner
  lastTunerIndex : Int
deriving DecidableEq, Repr

/-- `(last + off) % n` as computed by JS on the Int `lastTunerIndex`.
The JS `%` agrees with `Int.emod` whenever the dividend is nonnegative,
which holds in every use below because `lastTunerIndex ≥ -1` and
`off ≥ 1`. -/
def jsIdx (last : Int) (off : Nat) (n : Nat) : Nat :=
  ((last + off) % (n : Int)).toNat

/-- The round-robin free search of `acquireTuner` (stream.js:195-202):
`for (let i = 0; i < TUNERS.length; i++) { const nextIndex =
(lastTunerIndex + 1 + i) % TUNERS.length; ... if (!inUse) return ... }`.
`remaining` counts the loop iterations still to run
(`TUNERS.length - i`). -/
def findFreeLoop (ts : List Tuner) (last : Int) : Nat → Nat → Option Nat
  | 0, _ => none
  | remaining + 1, i =>
    let nextIndex := jsIdx last (1 + i) ts.length
    if (ts.getD nextIndex dummyTuner).inUse = false then some nextIndex
    else findFreeLoop ts last remaining (i + 1)

def findFree (ts : List Tuner) (last : Int) : Option Nat :=
  findFreeLoop ts last ts.length 0

/-- The tuner `acquireTuner` attempts to preempt (stream.js:204-213): when
the free search failed and `ENABLE_PREEMPTION` holds, the single candidate
is `TUNERS[(lastTunerIndex + 1) % TUNERS.length]`, rejected only when it is
`epgScanning`.  (`pre` is the configured `ENABLE_PREEMPTION` flag; for an
empty pool the JS index is `NaN` and `TUNERS[NaN]` is undefined, so the
`if (tuner && ...)` guard fails.) -/
def preemptionVictim (p : Pool) (pre : Bool) : Option Nat :=
  match findFree p.tuners p.lastTunerIndex with
  | some _ => none
  | none =>
    if pre = true ∧ 0 < p.tuners.length then
      let preemptIndex := jsIdx p.lastTunerIndex 1 p.tuners.length
      if (p.tuners.getD preemptIndex dummyTuner).epgScanning = false then
        some preemptIndex
      else none
    else none

/-- Effect of the victim's `killSwitch` (= the live session `cleanup`,
stream.js:62-76) as observed by the arbiter once the 2 s force-kill timer
has run: `inUse` (and `usageType`) are cleared.  `epgScanning` and
`killSwitch` itself are not touched. -/
def cleanupEffect (t : Tuner) : Tuner :=
  { t with inUse := false }

/-- `acquireTuner` (stream.js:193-238), single-requestor semantics: no
other task mutates the pool while this call sleeps, and a victim whose
`killSwitch` exists becomes free inside the 3 s poll (its force-kill timer
fires at 2 s).  The function ignores the lease-kind argument its callers
pass (`acquireTuner('live')` at stream.js:17, `acquireTuner('dvr')` at
dvr.js:70): the JS declaration `async function acquireTuner()` binds no
parameter.  Returns the granted tuner index (the caller sets `inUse`) and
the updated pool. -/
def acquireTuner (_kind : String) (p : Pool) (pre : Bool) : Option Nat × Pool :=
  -- 1. round-robin free search
  match findFree p.tuners p.lastTunerIndex with
  | some nextIndex => (some nextIndex, { p with lastTunerIndex := nextIndex })
  | none =>
    -- 2. preemption of the single candidate
    match preemptionVictim p pre with
    | some preemptIndex =>
      let victim := p.tuners.getD preemptIndex dummyTuner
      if victim.hasKillSwitch then
        -- killSwitch fires, cleanup frees the tuner within the poll budget
        (some preemptIndex,
          { tuners := p.tuners.set preemptIndex (cleanupEffect victim),
            lastTunerIndex := preemptIndex })
      else
        -- nothing frees the tuner: the poll and the last-ditch wait fail
        (none, p)
    | none =>
      -- 3. last-ditch wait: quiescent pool, every retry fails
      (none, p)

/-- The sequence of indices `(lastTunerIndex + 1) % N, (lastTunerIndex + 2)
% N, …, (lastTunerIndex + N) % N` that the spec describes for the
round-robin search. -/
def scanOrder (last : Int) (n : Nat) : List Nat :=
  (List.range n).map (fun i => jsIdx last (1 + i) n)

/-- A pool state reachable from the three lease-taking code paths:
`epgScanning` is true exactly on tuners currently leased by the EPG
orchestrator (epg.js:62-63 sets `inUse` and `epgScanning` together,
epg.js:74-75 clears them together; the live and DVR paths never set
`epgScanning`). -/
def PoolWF (p : Pool) : Prop :=
  ∀ t ∈ p.tuners, (t.epgScanning = true ↔ (t.inUse = true ∧ t.kind = .epg))

instance (p : Pool) : Decidable (PoolWF p) := by
  unfold PoolWF
  infer_instance

lemma jsIdx_lt (last : Int) (off : Nat) {n : Nat} (hn : 0 < n) :
    jsIdx last off n < n := by
  unfold jsIdx
  have h1 : (0 : Int) < (n : Int) := by exact_mod_cast hn
  have h2 := Int.emod_lt_of_pos (last + off) h1
  have h3 := Int.emod_nonneg (last + off) (by omega : (n : Int) ≠ 0)
  omega

lemma scanOrder_length (last : Int) (n : Nat) :
    (scanOrder last n).length = n := by
  simp [scanOrder]

lemma scanOrder_getElem (last : Int) (n i : Nat) (h : i < n)
    (h2 : i < (scanOrder last n).length) :
    (scanOrder last n)[i] = jsIdx last (1 + i) n := by
  simp [scanOrder]

/-- Every in-range index is hit by the scan order: the residues
`(last + 1 + i) mod n` for `i = 0 … n-1` cover `0 … n-1`. -/
lemma exists_scan_hit (last : Int) {n j : Nat} (hj : j < n) :
    ∃ i, i < n ∧ jsIdx last (1 + i) n = j := by
  have hn0 : (0 : Int) < (n : Int) := by exact_mod_cast Nat.pos_of_ne_zero (by omega)
  have hne : (n : Int) ≠ 0 := by omega
  set c : Int := (j : Int) - (last + 1) with hc
  have h3 : 0 ≤ c % (n : Int) := Int.emod_nonneg c hne
  have h2 : c % (n : Int) < (n : Int) := Int.emod_lt_of_pos c hn0
  refine ⟨(c % (n : Int)).toNat, by omega, ?_⟩
  unfold jsIdx
  have hcast : (((c % (n : Int)).toNat : Int)) = c % (n : Int) := Int.toNat_of_nonneg h3
  have key : (last + ((1 : Nat) + (c % (n : Int)).toNat : Nat)) % (n : Int)
      = (j : Int) := by
    push_cast [hcast]
    have harr : last + (1 + c % (n : Int)) = (last + 1) + c % (n : Int) := by ring
    rw [harr, Int.add_emod, Int.emod_emod_of_dvd c dvd_rfl, ← Int.add_emod]
    have : last + 1 + c = (j : Int) := by rw [hc]; ring
    rw [this]
    exact Int.emod_eq_of_lt (by omega) (by exact_mod_cast hj)
  rw [key]
  omega

lemma findFreeLoop_eq_find? (ts : List Tuner) (last : Int) :
    ∀ r i, r = ts.length - i →
    findFreeLoop ts last r i
      = ((scanOrder last ts.length).drop i).find?
          (fun idx => !(ts.getD idx dummyTuner).inUse) := by
  intro r
  induction r with
  | zero =>
    intro i hr
    rw [List.drop_eq_nil_of_le (by simp [scanOrder_length]; omega)]
    rfl
  | succ r ih =>
    intro i hr
    have hlt : i < ts.length := by omega
    have hdrop := List.drop_eq_getElem_cons
      (l := scanOrder last ts.length) (n := i) (by simpa [scanOrder_length])
    rw [scanOrder_getElem last ts.length i hlt
      (by simpa [scanOrder_length])] at hdrop
    rw [hdrop]
    show findFreeLoop ts last (r + 1) i = _
    rw [findFreeLoop, List.find?_cons]
    by_cases hfree : (ts.getD (jsIdx last (1 + i) ts.length) dummyTuner).inUse = false
    · simp only [List.getD, List.get?_eq_getElem?] at hfree
      simp [hfree]
    · simp only [Bool.not_eq_false] at hfree
      simp only [List.getD, List.get?_eq_getElem?] at hfree ⊢
      rw [hfree, if_neg (by simp)]
      have hnext := ih (i + 1) (by omega)
      simpa [List.getD, List.get?_eq_getElem?] using hnext

lemma findFree_eq_find? (ts : List Tuner) (last : Int) :
    findFree ts last
      = (scanOrder last ts.length).find?
          (fun idx => !(ts.getD idx dummyTuner).inUse) := by
  rw [findFree, findFreeLoop_eq_find? ts last ts.length 0 (by omega), List.drop_zero]

/-- If the free search fails, every tuner is busy. -/
lemma findFree_none (ts : List Tuner) (last : Int)
    (h : findFree ts last = none) :
    ∀ j, j < ts.length → (ts.getD j dummyTuner).inUse = true := by
  intro j hj
  rw [findFree_eq_find?] at h
  obtain ⟨i, hi, hij⟩ := exists_scan_hit last hj
  have hmem : j ∈ scanOrder last ts.length := by
    simp only [scanOrder, List.mem_map, List.mem_range]
    exact ⟨i, hi, hij⟩
  have := List.find?_eq_none.mp h j hmem
  simpa using this

/-- C3 (confirmed).  When the pool holds at least one idle tuner,
`acquireTuner` grants exactly the first idle tuner in the scan order
`(lastGranted+1) mod N, (lastGranted+2) mod N, …` and records its index in
`lastTunerIndex`.  The hypothesis `-1 ≤ lastTunerIndex` is the invariant
maintained by the source (`lastTunerIndex` starts at `-1` and is only ever
assigned in-range indices); on it the model's `emod` agrees with the JS
`%`. -/
theorem acquireTuner_roundRobin (kind : String) (p : Pool) (pre : Bool)
    (_hlast : -1 ≤ p.lastTunerIndex)
    (hidle : ∃ t ∈ p.tuners, t.inUse = false) :
    ∃ j, (scanOrder p.lastTunerIndex p.tuners.length).find?
          (fun idx => !(p.tuners.getD idx dummyTuner).inUse) = some j ∧
      acquireTuner kind p pre = (some j, { p with lastTunerIndex := (j : Int) }) := by
  obtain ⟨t, hmem, hfree⟩ := hidle
  obtain ⟨n, hn, hget⟩ := List.getElem_of_mem hmem
  have hsome : ((scanOrder p.lastTunerIndex p.tuners.length).find?
      (fun idx => !(p.tuners.getD idx dummyTuner).inUse)).isSome := by
    rw [List.find?_isSome]
    obtain ⟨i, hi, hij⟩ := exists_scan_hit p.lastTunerIndex hn
    refine ⟨n, ?_, ?_⟩
    · simp only [scanOrder, List.mem_map, List.mem_range]
      exact ⟨i, hi, hij⟩
    · simp [List.getD_eq_getElem?_getD, List.getElem?_eq_getElem hn, hget, hfree]
  obtain ⟨j, hj⟩ := Option.isSome_iff_exists.mp hsome
  refine ⟨j, hj, ?_⟩
  have hff : findFree p.tuners p.lastTunerIndex = some j := by
    rw [findFree_eq_find?, hj]
  unfold acquireTuner
  rw [hff]

/-- Witness for `acquireTuner_roundRobin`: a two-tuner pool with tuner 0
busy and tuner 1 idle, fresh `lastTunerIndex = -1`. -/
theorem acquireTuner_roundRobin_witness :
    ∃ j, (scanOrder (Pool.mk [⟨0, true, false, false, .live⟩,
            ⟨1, false, false, false, .live⟩] (-1)).lastTunerIndex
            (Pool.mk [⟨0, true, false, false, .live⟩,
            ⟨1, false, false, false, .live⟩] (-1)).tuners.length).find?
          (fun idx => !((Pool.mk [⟨0, true, false, false, .live⟩,
            ⟨1, false, false, false, .live⟩] (-1)).tuners.getD idx dummyTuner).inUse)
          = some j ∧
      acquireTuner "live" (Pool.mk [⟨0, true, false, false, .live⟩,
            ⟨1, false, false, false, .live⟩] (-1)) false
        = (some j, { Pool.mk [⟨0, true, false, false, .live⟩,
            ⟨1, false, false, false, .live⟩] (-1) with lastTunerIndex := (j : Int) }) :=
  acquireTuner_roundRobin "live"
    (Pool.mk [⟨0, true, false, false, .live⟩, ⟨1, false, false, false, .live⟩] (-1))
    false (by decide) ⟨⟨1, false, false, false, .live⟩, by decide, rfl⟩

/-- C9 (confirmed).  The grant decision, preemption behaviour and
resulting pool state of `acquireTuner` are independent of the lease-kind
argument: the JS declaration `async function acquireTuner()` binds no
parameter, so the `'live'` / `'dvr'` arguments of its callers are ignored
wholesale. -/
theorem acquireTuner_kind_irrelevant (k1 k2 : String) (p : Pool) (pre : Bool) :
    acquireTuner k1 p pre = acquireTuner k2 p pre := rfl

/-- C2 (amended, proved part).  In a well-formed pool with no idle tuner,
a preemption is attempted only when `ENABLE_PREEMPTION` is true and the
candidate victim is not EPG-scanning — hence never against an `epg`
lease.  (The claim's stronger condition "the victim is a `live` lease" is
refuted by `preemption_dvr_counterexample`: a `dvr` victim passes the
guard.) -/
theorem preemptionVictim_guard (p : Pool) (pre : Bool) (i : Nat)
    (hwf : PoolWF p) (h : preemptionVictim p pre = some i) :
    pre = true ∧ (p.tuners.getD i dummyTuner).inUse = true ∧
      (p.tuners.getD i dummyTuner).epgScanning = false ∧
      (p.tuners.getD i dummyTuner).kind ≠ .epg := by
  unfold preemptionVictim at h
  cases hff : findFree p.tuners p.lastTunerIndex with
  | some v => rw [hff] at h; exact absurd h (by simp)
  | none =>
    rw [hff] at h
    by_cases hc : pre = true ∧ 0 < p.tuners.length
    · rw [if_pos hc] at h
      by_cases hepg : (p.tuners.getD (jsIdx p.lastTunerIndex 1 p.tuners.length)
          dummyTuner).epgScanning = false
      · rw [if_pos hepg] at h
        have hieq : i = jsIdx p.lastTunerIndex 1 p.tuners.length := by
          cases h; rfl
        subst hieq
        have hlt := jsIdx_lt p.lastTunerIndex 1 hc.2
        have hbusy := findFree_none p.tuners p.lastTunerIndex hff _ hlt
        refine ⟨hc.1, hbusy, hepg, ?_⟩
        have hmem : p.tuners.getD (jsIdx p.lastTunerIndex 1 p.tuners.length)
            dummyTuner ∈ p.tuners := by
          rw [List.getD_eq_getElem?_getD, List.getElem?_eq_getElem hlt]
          exact List.getElem_mem _
        intro hkind
        have := (hwf _ hmem).mpr ⟨hbusy, hkind⟩
        rw [this] at hepg
        exact absurd hepg (by simp)
      · rw [if_neg hepg] at h; exact absurd h (by simp)
    · rw [if_neg hc] at h; exact absurd h (by simp)

/-- Witness for `preemptionVictim_guard`: one busy live tuner with
preemption enabled. -/
theorem preemptionVictim_guard_witness :
    preemptionVictim (Pool.mk [⟨0, true, false, true, .live⟩] (-1)) true = some 0 ∧
      ((Pool.mk [⟨0, true, false, true, .live⟩] (-1)).tuners.getD 0 dummyTuner).inUse
        = true ∧
      ((Pool.mk [⟨0, true, false, true, .live⟩] (-1)).tuners.getD 0
        dummyTuner).kind ≠ .epg :=
  ⟨by decide,
    (preemptionVictim_guard (Pool.mk [⟨0, true, false, true, .live⟩] (-1)) true 0
      (by decide) (by decide)).2.1,
    (preemptionVictim_guard (Pool.mk [⟨0, true, false, true, .live⟩] (-1)) true 0
      (by decide) (by decide)).2.2.2⟩

/-- C2 (counterexample).  A well-formed single-tuner pool whose tuner is
held by a DVR lease (and still carrying a stale `killSwitch` from an
earlier live session): a `live` acquire with preemption enabled preempts
it even though the victim's lease is `dvr`, not `live` — refuting "a live
acquire preempts only a tuner whose current lease is itself a live
lease". -/
theorem preemption_dvr_counterexample :
    preemptionVictim (Pool.mk [⟨0, true, false, true, .dvr⟩] (-1)) true = some 0 ∧
      (acquireTuner "live" (Pool.mk [⟨0, true, false, true, .dvr⟩] (-1)) true).1
        = some 0 ∧
      ((Pool.mk [⟨0, true, false, true, .dvr⟩] (-1)).tuners.getD 0 dummyTuner).kind
        = .dvr ∧
      PoolWF (Pool.mk [⟨0, true, false, true, .dvr⟩] (-1)) := by
  refine ⟨by decide, by decide, by decide, ?_⟩
  intro t ht
  simp only [List.mem_singleton] at ht
  subst ht
  decide

/-! ## Live-stream session teardown (src/lib/stream.js, lines 54-77)

A live session, once granted a tuner, sets `tuner.inUse = true`
(stream.js:54) and spawns the demodulator (`dvbv5-zap`) and the
transcoder (`ffmpeg`).  The only code that returns the tuner to idle is
the `cleanup` closure (stream.js:62-76): it is guarded by the
`cleaningUp` flag, sends SIGTERM to both children, and arms a 2 s timer
whose callback SIGKILLs both children and only then clears `inUse`.
Node's event loop runs each callback atomically, but the model below also
admits every intermediate state inside the timer callback, so the proved
invariant captures the statement order of stream.js:70-74. -/

/-- One primitive statement of the 2 s force-kill callback
(stream.js:69-75). -/
inductive CleanupAct
  | killFfmpeg    -- procs.ffmpeg.kill('SIGKILL')
  | killZap       -- procs.zap.kill('SIGKILL')
  | markIdle      -- tuner.inUse = false
  | clearUsage    -- tuner.usageType = null
  | clearCleaning -- tuner.cleaningUp = false
deriving DecidableEq, Repr

/-- Per-session view of the tuner record and the two child processes.
`zapKilled` / `ffmpegKilled` are sticky: once SIGKILL has been delivered
the process cannot run again. -/
structure SessionState where
  inUse : Bool
  cleaningUp : Bool
  watchdogStopped : Bool
  zapTermed : Bool
  zapKilled : Bool
  ffmpegTermed : Bool
  ffmpegKilled : Bool
  timerArmed : Bool
  usageType : Option LeaseKind
deriving DecidableEq, Repr

/-- State right after stream.js:54-60: lease held, children running. -/
def initialSession : SessionState :=
  ⟨true, false, false, false, false, false, false, false, some .live⟩

def applyCleanupAct (s : SessionState) : CleanupAct → SessionState
  | .killFfmpeg => { s with ffmpegKilled := true }
  | .killZap => { s with zapKilled := true }
  | .markIdle => { s with inUse := false }
  | .clearUsage => { s with usageType := none }
  | .clearCleaning => { s with cleaningUp := false }

/-- The statement order of the force-kill callback, stream.js:70-74. -/
def forceKillBody : List CleanupAct :=
  [.killFfmpeg, .killZap, .markIdle, .clearUsage, .clearCleaning]

/-- The synchronous part of `cleanup` (stream.js:62-69): idempotence
guard, stop the watchdog, SIGTERM both children, arm the 2 s timer. -/
def cleanupCall (s : SessionState) : SessionState :=
  if s.cleaningUp then s
  else { s with cleaningUp := true, watchdogStopped := true,
                ffmpegTermed := true, zapTermed := true, timerArmed := true }

/-- Session states reachable from a freshly started live stream:
`cleanup` may be invoked at any time (client close, pipe error, watchdog,
preemption), and once armed the force-kill timer may fire; every prefix
of the timer callback is considered a state of its own. -/
inductive SessionReach : SessionState → Prop
  | init : SessionReach initialSession
  | cleanup {s} : SessionReach s → SessionReach (cleanupCall s)
  | timer {s} (n : Nat) : SessionReach s → s.timerArmed = true →
      SessionReach ((forceKillBody.take n).foldl applyCleanupAct s)

/-- C1 (confirmed).  In every reachable session state — including every
intermediate point inside the force-kill callback — a tuner that has been
marked idle again has already had SIGKILL delivered to its demodulator:
the `procs.zap.kill('SIGKILL')` at stream.js:71 precedes the
`tuner.inUse = false` at stream.js:72, and no other statement of the live
path clears `inUse`.  A subsequent grant therefore never races the
kernel hardware lock held by a still-running demodulator. -/
theorem session_idle_zap_killed (s : SessionState) (hr : SessionReach s)
    (hidle : s.inUse = false) : s.zapKilled = true := by
  induction hr with
  | init => exact absurd hidle (by decide)
  | cleanup hs ih =>
    rename_i s'
    unfold cleanupCall at hidle ⊢
    by_cases hc : s'.cleaningUp
    · rw [if_pos hc] at hidle ⊢; exact ih hidle
    · rw [if_neg hc] at hidle ⊢
      simp only at hidle ⊢
      exact ih hidle
  | timer n hs harm ih =>
    rename_i s'
    rcases n with _ | _ | _ | _ | _ | n <;>
      simp only [forceKillBody, List.take, List.take_nil, List.foldl,
        applyCleanupAct] at hidle ⊢ <;>
      first
        | exact ih hidle
        | rfl

/-- Witness for `session_idle_zap_killed`: the state after `cleanup` ran
and its force-kill timer fired in full. -/
theorem session_idle_zap_killed_witness :
    ((forceKillBody.take 5).foldl applyCleanupAct
        (cleanupCall initialSession)).inUse = false ∧
      ((forceKillBody.take 5).foldl applyCleanupAct
        (cleanupCall initialSession)).zapKilled = true :=
  ⟨by decide,
    session_idle_zap_killed _
      (SessionReach.timer 5 (SessionReach.cleanup SessionReach.init) (by decide))
      (by decide)⟩

/-! ## EPG scan orchestrator (src/lib/epg.js, `grab`, lines 33-88) -/

/-- An entry of `Channels.CHANNELS` as consumed by epg.js.  The source
stores `frequency` as a decimal string and compares it with loose `==`;
it is modelled by its numeric value (`0` = absent/falsy). -/
structure Channel where
  number : String
  name : String
  serviceId : String
  frequency : Nat
deriving DecidableEq, Repr

/-- The distinct-frequency list `grab` builds from `Channels.CHANNELS`
(epg.js:48-55): first-seen order, skipping falsy frequencies. -/
def muxFrequencies (channels : List Channel) : List Nat :=
  (channels.foldl
    (fun acc c =>
      if c.frequency ≠ 0 ∧ acc.contains c.frequency = false
      then acc ++ [c.frequency] else acc)
    [])

/-- The mutable flags of the `EPG` singleton consulted by `grab`. -/
structure EpgFlags where
  isScanning : Bool
  isInitialScanDone : Bool
  lastScan : Nat
deriving DecidableEq, Repr

structure GrabResult where
  flags : EpgFlags
  scanned : List Nat
  proceeded : Bool
deriving DecidableEq, Repr

/-- The per-frequency loop of `grab` (epg.js:57-79) under quiescent
single-task semantics: each iteration re-checks for a free tuner
(`TUNERS.find(t => !t.inUse)`, breaking when none), leases it for the
mux scan, and restores it afterwards, so the observable tuner list at
every iteration equals the input.  `scanMux`'s capture-and-parse I/O is
abstracted; the returned list records which frequencies were scanned. -/
def grabLoop (tuners : List Tuner) : List Nat → List Nat
  | [] => []
  | f :: rest =>
    match tuners.find? (fun t => !t.inUse) with
    | none => []
    | some _ => f :: grabLoop tuners rest

/-- `grab` (epg.js:33-88).  Guard order as in the source: (1) drop the
invocation if a scan is already in progress — note this early return does
NOT touch `isInitialScanDone`; (2) if any tuner is busy
(`freeTuners.length < TUNERS.length`), skip the scan but mark
`isInitialScanDone = true`; (3) otherwise run the scan, and in the
`finally` block clear `isScanning`, stamp `lastScan` and set
`isInitialScanDone = true`. -/
def grab (st : EpgFlags) (tuners : List Tuner) (freqs : List Nat)
    (now : Nat) : GrabResult :=
  if st.isScanning then ⟨st, [], false⟩
  else if (tuners.filter (fun t => !t.inUse)).length < tuners.length then
    ⟨{ st with isInitialScanDone := true }, [], false⟩
  else
    ⟨⟨false, true, now⟩, grabLoop tuners freqs, true⟩

lemma length_filter_eq_length_iff {α : Type} (p : α → Bool) (l : List α) :
    (l.filter p).length = l.length ↔ ∀ a ∈ l, p a = true := by
  induction l with
  | nil => simp
  | cons x xs ih =>
    by_cases hx : p x = true
    · simp [hx, ih]
    · simp only [List.filter_cons, hx, if_neg]
      have hle := List.length_filter_le p xs
      constructor
      · intro h
        simp only [Bool.not_eq_true] at hx
        simp only [hx, Bool.false_eq_true, if_false, List.length_cons] at h
        omega
      · intro h
        exact absurd (h x (by simp)) hx

/-- C4 (amended).  A scan proceeds only when no scan is in progress and
every tuner is idle; an invocation that finds tuners busy or a scan in
progress scans nothing; the readiness flag `isInitialScanDone` is set
whenever the invocation passes the `isScanning` guard (scan run or
busy-skip) — but an invocation dropped because another scan is already in
progress returns immediately and leaves the flags unchanged (the claim's
"flag is true after every invocation" fails there, see
`grab_dropped_counterexample`). -/
theorem grab_guard (st : EpgFlags) (tuners : List Tuner) (freqs : List Nat)
    (now : Nat) :
    ((grab st tuners freqs now).proceeded = true →
        st.isScanning = false ∧ ∀ t ∈ tuners, t.inUse = false) ∧
    ((grab st tuners freqs now).proceeded = false →
        (grab st tuners freqs now).scanned = []) ∧
    (st.isScanning = false →
        (grab st tuners freqs now).flags.isInitialScanDone = true) ∧
    (st.isScanning = true → grab st tuners freqs now = ⟨st, [], false⟩) := by
  by_cases hscan : st.isScanning
  · refine ⟨?_, ?_, ?_, ?_⟩ <;> simp [grab, hscan]
  · simp only [Bool.not_eq_true] at hscan
    by_cases hbusy : (tuners.filter (fun t => !t.inUse)).length < tuners.length
    · refine ⟨?_, ?_, ?_, ?_⟩ <;> simp [grab, hscan, hbusy]
    · have hall : ∀ t ∈ tuners, t.inUse = false := by
        have hlen : (tuners.filter (fun t => !t.inUse)).length = tuners.length := by
          have := List.length_filter_le (fun t => !t.inUse) tuners
          omega
        intro t ht
        have := (length_filter_eq_length_iff (fun t => !t.inUse) tuners).mp hlen t ht
        simpa using this
      refine ⟨fun _ => ⟨hscan, hall⟩, ?_, ?_, ?_⟩ <;> simp [grab, hscan, hbusy]

/-- Witness for `grab_guard`: two idle tuners, one frequency — the scan
proceeds and the readiness flag is set. -/
theorem grab_guard_witness :
    ((grab ⟨false, false, 0⟩ [⟨0, false, false, false, .live⟩]
        [500000000] 7).proceeded = true →
      (false : Bool) = false ∧
        ∀ t ∈ [(⟨0, false, false, false, .live⟩ : Tuner)], t.inUse = false) ∧
    ((grab ⟨false, false, 0⟩ [⟨0, false, false, false, .live⟩]
        [500000000] 7).flags.isInitialScanDone = true) :=
  ⟨fun h => ((grab_guard ⟨false, false, 0⟩ [⟨0, false, false, false, .live⟩]
      [500000000] 7).1 h),
    (grab_guard ⟨false, false, 0⟩ [⟨0, false, false, false, .live⟩]
      [500000000] 7).2.2.1 rfl⟩

/-- C4 (counterexample).  An invocation arriving while another scan is in
progress (`isScanning = true`) and before the first scan has completed
(`isInitialScanDone = false`) returns through the epg.js:34 early return:
afterwards the readiness flag is still false, refuting "after the
invocation the readiness flag isInitialScanDone is true whether the scan
proceeded or was skipped". -/
theorem grab_dropped_counterexample :
    (grab ⟨true, false, 0⟩ [⟨0, false, false, false, .live⟩]
        [500000000] 7).flags.isInitialScanDone = false ∧
      (grab ⟨true, false, 0⟩ [⟨0, false, false, false, .live⟩]
        [500000000] 7).proceeded = false := by
  exact ⟨by decide, by decide⟩

/-! ## Program store (src/lib/db.js and the `db.run` statements of epg.js)

The sqlite table `programs` has primary key
`(frequency, channel_service_id, start_time)` (db.js:10-19).  It is
modelled as a list of rows; the three SQL statements issued by the parser
become a small operation language `DbOp` applied in program order.  The
parser never reads the table, so emitting the operation list and folding
it over the store is an exact factoring of the source's interleaved
`db.run` calls. -/

structure ProgramRow where
  frequency : Nat
  channel_service_id : String
  start_time : Int
  end_time : Int
  title : String
  description : String
  event_id : Option Nat
  source_id : Option Nat
deriving DecidableEq, Repr

abbrev Store := List ProgramRow

/-- The three SQL statements of epg.js:
`atscUpsert` = epg.js:321-325 (INSERT … ON CONFLICT DO UPDATE SET
title, end_time, event_id, source_id — description deliberately absent);
`dvbUpsert` = epg.js:418-422 (… DO UPDATE SET title, end_time,
description); `ettUpdate` = epg.js:358-359 (UPDATE … SET description
WHERE frequency AND channel_service_id AND event_id). -/
inductive DbOp
  | atscUpsert (frequency : Nat) (chan : String) (start stop : Int)
      (title desc : String) (eventId sourceId : Nat)
  | dvbUpsert (frequency : Nat) (chan : String) (start stop : Int)
      (title desc : String)
  | ettUpdate (desc : String) (frequency : Nat) (chan : String) (eventId : Nat)
deriving DecidableEq, Repr

def rowKeyIs (r : ProgramRow) (f : Nat) (c : String) (s : Int) : Bool :=
  r.frequency == f && r.channel_service_id == c && r.start_time == s

def applyOp (store : Store) : DbOp → Store
  | .atscUpsert f c s e t d ev si =>
    if store.any (fun r => rowKeyIs r f c s) then
      store.map (fun r => if rowKeyIs r f c s then
        { r with title := t, end_time := e,
                 event_id := some ev, source_id := some si } else r)
    else store ++ [⟨f, c, s, e, t, d, some ev, some si⟩]
  | .dvbUpsert f c s e t d =>
    if store.any (fun r => rowKeyIs r f c s) then
      store.map (fun r => if rowKeyIs r f c s then
        { r with title := t, end_time := e, description := d } else r)
    else store ++ [⟨f, c, s, e, t, d, none, none⟩]
  | .ettUpdate d f c ev =>
    store.map (fun r =>
      if r.frequency == f && r.channel_service_id == c && r.event_id == some ev
      then { r with description := d } else r)

def applyOps (store : Store) (ops : List DbOp) : Store :=
  ops.foldl applyOp store

/-! ## Byte- and string-level helpers for the parser -/

/-- A Node `Buffer` as a list of byte values. -/
abbrev Buf := List Nat

/-- `buffer[i]`; out-of-range reads default to 0 (see the header note). -/
def byte (b : Buf) (i : Nat) : Nat := b.getD i 0

/-- `buffer.slice(s, e)` for `0 ≤ s ≤ e` (clamping at the end). -/
def jsSlice (b : Buf) (s e : Nat) : Buf := (b.drop s).take (e - s)

/-- `buffer.readUInt32BE(o)`. -/
def readUInt32BE (b : Buf) (o : Nat) : Nat :=
  byte b o * 16777216 + byte b (o + 1) * 65536 + byte b (o + 2) * 256
    + byte b (o + 3)

/-- `buffer.toString('utf8')`, modelled byte-wise: ASCII bytes map to
their character, non-ASCII bytes to U+FFFD (exact for the ASCII subset
and for isolated high bytes; multi-byte UTF-8 sequences, which never
occur in the inputs considered here, would differ). -/
def bufToString (b : Buf) : String :=
  ⟨b.map (fun n => if n < 128 then Char.ofNat n else Char.ofNat 0xFFFD)⟩

/-- The character class of `replace(/[\x00-\x09\x0B-\x1F\x7F]+/g, '')`
(epg.js:306, 351): control characters except LF. -/
def isStrippedCtl (c : Char) : Bool :=
  (c.toNat ≤ 0x09) || (0x0B ≤ c.toNat && c.toNat ≤ 0x1F) || (c.toNat == 0x7F)

def stripCtl (s : String) : String :=
  ⟨s.data.filter (fun c => !isStrippedCtl c)⟩

/-- `String.prototype.trim()` on the ASCII whitespace subset. -/
def isJsSpace (c : Char) : Bool :=
  (c.toNat == 0x20) || (c.toNat == 0x09) || (c.toNat == 0x0A)
    || (c.toNat == 0x0B) || (c.toNat == 0x0C) || (c.toNat == 0x0D)

def jsTrim (s : String) : String :=
  ⟨((s.data.dropWhile isJsSpace).reverse.dropWhile isJsSpace).reverse⟩

/-- `replace(/[^\x20-\x7E]/g, '')` (epg.js:400): keep printable ASCII. -/
def keepPrintable (s : String) : String :=
  ⟨s.data.filter (fun c => 0x20 ≤ c.toNat && c.toNat ≤ 0x7E)⟩

/-! ## Parser state (the `EPG` singleton's `sourceMap` and
`sectionBuffers` JS `Map`s, epg.js:12-13), as insertion-ordered
association lists with the JS `Map` `get`/`set`/`delete` semantics. -/

def mapGet (m : List (String × String)) (k : String) : Option String :=
  (m.find? (fun p => p.1 == k)).map (fun p => p.2)

def mapSet (m : List (String × String)) (k v : String) :
    List (String × String) :=
  if m.any (fun p => p.1 == k) then
    m.map (fun p => if p.1 == k then (k, v) else p)
  else m ++ [(k, v)]

/-- Partial-section reassembly state for one PID (epg.js:170). -/
structure SectionAccum where
  buffer : Buf
  totalLength : Nat
deriving DecidableEq, Repr

def sbGet (m : List (Nat × SectionAccum)) (pid : Nat) : Option SectionAccum :=
  (m.find? (fun p => p.1 == pid)).map (fun p => p.2)

def sbSet (m : List (Nat × SectionAccum)) (pid : Nat) (v : SectionAccum) :
    List (Nat × SectionAccum) :=
  if m.any (fun p => p.1 == pid) then
    m.map (fun p => if p.1 == pid then (pid, v) else p)
  else m ++ [(pid, v)]

def sbDelete (m : List (Nat × SectionAccum)) (pid : Nat) :
    List (Nat × SectionAccum) :=
  m.filter (fun p => p.1 != pid)

/-- The parser's persistent state: both fields survive between `parseEIT`
calls on the `EPG` singleton. -/
structure EpgState where
  sourceMap : List (String × String)
  sectionBuffers : List (Nat × SectionAccum)
deriving DecidableEq, Repr

/-- The string key `freq + '_' + id` used by `sourceMap`
(epg.js:215, 243). -/
def mapKey (freq : Nat) (id : Nat) : String :=
  toString freq ++ "_" ++ toString id

/-! ## DVB time decoding (epg.js:16-31) -/

/-- Days from civil date (proleptic Gregorian), the arithmetic underlying
ECMAScript `Date.UTC`; `m ∈ 1..12`. -/
def daysFromCivil (y m d : Int) : Int :=
  let yy := if m ≤ 2 then y - 1 else y
  let era := Int.fdiv yy 400
  let yoe := yy - era * 400
  let mp := if 2 < m then m - 3 else m + 9
  let doy := (153 * mp + 2) / 5 + (d - 1)
  let doe := yoe * 365 + yoe / 4 - yoe / 100 + doy
  era * 146097 + doe - 719468

/-- `Date.UTC(year, monthIndex, day, h, mi, s)` in milliseconds, with the
ECMAScript normalisation of out-of-range month indices and days.  (The
two-digit-year quirk of `Date.UTC` is unreachable: epg.js always passes
`1900 + Y + k ≥ 1858`.) -/
def dateUTC (year monthIndex day h mi s : Int) : Int :=
  let ya := year + Int.fdiv monthIndex 12
  let m0 := Int.fmod monthIndex 12
  (daysFromCivil ya (m0 + 1) 1 + (day - 1)) * 86400000
    + h * 3600000 + mi * 60000 + s * 1000

/-- `parseDVBTime(mjd, bcd)` (epg.js:16-31).  The JS floating-point
`Math.floor` computations are rendered over ℚ; for the 16-bit MJD values
a section can carry, the double rounding error (≤ 2⁻³⁰) never crosses an
integer boundary (the fractional parts involved are ≥ 0.05), so the two
agree. -/
def parseDVBTime (mjd : Nat) (bcd : Nat) : Int :=
  let Y : Int := ⌊((mjd : ℚ) - 15078.2) / 365.25⌋
  let M : Int := ⌊((mjd : ℚ) - 14956.1 - ((Y : ℚ) * 365.25).floor) / 30.6001⌋
  let D : Int := (mjd : Int) - 14956 - ⌊(Y : ℚ) * 365.25⌋ - ⌊(M : ℚ) * 30.6001⌋
  let k : Int := if M = 14 ∨ M = 15 then 1 else 0
  let year := 1900 + Y + k
  let month := M - 1 - k * 12
  let h : Int := ((bcd / 1048576) % 16) * 10 + ((bcd / 65536) % 16)
  let m : Int := ((bcd / 4096) % 16) * 10 + ((bcd / 256) % 16)
  let s : Int := ((bcd / 16) % 16) * 10 + (bcd % 16)
  dateUTC year (month - 1) D h m s

/-! ## Table parsers (epg.js:230-430) -/

/-- epg.js:285 — `eventId = ((section[offset] & 0x3F) << 8) |
section[offset + 1]`. -/
def atscEventId (sec : Buf) (offset : Nat) : Nat :=
  (byte sec offset % 64) * 256 + byte sec (offset + 1)

/-- epg.js:286 — `startTimeGPS = section.readUInt32BE(offset + 2)`. -/
def atscEventGPS (sec : Buf) (offset : Nat) : Nat :=
  readUInt32BE sec (offset + 2)

/-- epg.js:287 — the 20-bit `duration` field. -/
def atscEventDuration (sec : Buf) (offset : Nat) : Nat :=
  (byte sec (offset + 6) % 16) * 65536
    + byte sec (offset + 7) * 256 + byte sec (offset + 8)

/-- epg.js:290 — `startTime = (startTimeGPS + 315964800 - 18) * 1000`. -/
def atscEventStart (sec : Buf) (offset : Nat) : Int :=
  ((atscEventGPS sec offset + 315964800 - 18 : Nat) : Int) * 1000

/-- epg.js:291 — `endTime = startTime + duration * 1000`. -/
def atscEventEnd (sec : Buf) (offset : Nat) : Int :=
  atscEventStart sec offset + (atscEventDuration sec offset : Int) * 1000

/-- epg.js:293-310 — Multi-String-Structure title extraction: decode,
strip control characters, trim. -/
def atscEventTitle (sec : Buf) (offset : Nat) : String :=
  let titleLength := byte sec (offset + 9)
  let co := offset + 10
  if 0 < titleLength ∧ co + titleLength ≤ sec.length then
    let titleBuffer := jsSlice sec co (co + titleLength)
    if 0 < titleBuffer.length then
      let numStrings := byte titleBuffer 0
      let stringOffset := 1
      if 0 < numStrings ∧ stringOffset + 7 ≤ titleBuffer.length then
        let stringLen := byte titleBuffer (stringOffset + 6)
        if stringOffset + 7 + stringLen ≤ titleBuffer.length then
          jsTrim (stripCtl (bufToString
            (jsSlice titleBuffer (stringOffset + 7)
              (stringOffset + 7 + stringLen))))
        else ""
      else ""
    else ""
  else ""

/-- epg.js:312-317 — advance past title and the 12-bit
`descriptors_length`. -/
def atscNextOffset (sec : Buf) (offset : Nat) : Nat :=
  let co2 := offset + 10 + byte sec (offset + 9)
  if co2 + 2 ≤ sec.length - 4 then
    co2 + 2 + ((byte sec co2 % 16) * 256 + byte sec (co2 + 1))
  else co2

/-- Event loop of `parseATSCEIT` (epg.js:282-329).  `remaining` is the
iteration count left out of `numEvents`; `sectionLength` is read by the
caller.  Emits one `atscUpsert` per event passing the
`title && startTime > 0` guard (epg.js:319); the `description` bound at
epg.js:325 is the local `description` variable, which is always `''` on
this path. -/
def parseATSCEITLoop (sec : Buf) (virtualChannel : String)
    (sourceId freq sectionLength : Nat) : Nat → Nat → List DbOp
  | 0, _ => []
  | remaining + 1, offset =>
    if sectionLength + 3 < offset + 10 then []
    else
      (if atscEventTitle sec offset ≠ "" ∧ (0 : Int) < atscEventStart sec offset
      then
        [DbOp.atscUpsert freq virtualChannel (atscEventStart sec offset)
          (atscEventEnd sec offset) (atscEventTitle sec offset) ""
          (atscEventId sec offset) sourceId]
      else [])
        ++ parseATSCEITLoop sec virtualChannel sourceId freq
            sectionLength remaining (atscNextOffset sec offset)

/-- `parseATSCEIT(section, virtualChannel, onFound, sourceId, freq)`
(epg.js:276-333), as the list of `db.run` upserts it issues (each one is
also an `onFound` tick). -/
def parseATSCEIT (sec : Buf) (virtualChannel : String)
    (sourceId freq : Nat) : List DbOp :=
  let sectionLength := (byte sec 1 % 16) * 256 + byte sec 2
  let numEvents := byte sec 9
  parseATSCEITLoop sec virtualChannel sourceId freq sectionLength
    numEvents 10

/-- `parseATSCEET(section, sourceId, virtualChannel, freq)`
(epg.js:335-364).  (In the JS `section.slice(13, sectionLength + 3 - 4)`
the end argument cannot be negative on any delivered section, since
delivery guarantees `sec.length = sectionLength + 3 ≥ 13` here.) -/
def parseATSCEET (sec : Buf) (sourceId : Nat) (virtualChannel : String)
    (freq : Nat) : List DbOp :=
  let sectionLength := (byte sec 1 % 16) * 256 + byte sec 2
  if sec.length < 13 then []
  else
    let etmId := readUInt32BE sec 9
    let eventId := (etmId / 4) % 16384
    let mssBuffer := jsSlice sec 13 (sectionLength + 3 - 4)
    let desc :=
      if 5 < mssBuffer.length then
        let numStrings := byte mssBuffer 0
        if 0 < numStrings then
          let stringLen := byte mssBuffer 7
          if 8 + stringLen ≤ mssBuffer.length then
            jsTrim (stripCtl (bufToString (jsSlice mssBuffer 8 (8 + stringLen))))
          else ""
        else ""
      else ""
    if desc ≠ "" then [DbOp.ettUpdate desc freq virtualChannel eventId]
    else []

/-- Descriptor loop of `parseDVBEIT` (epg.js:392-414): accumulates the
Short-Event title (tag 0x4D, overwriting) and the first Extended-Event
text (tag 0x4E).  `bound = evOffset + 12 + descriptorsLength`; `fuel`
bounds the iteration count (each step advances `descOffset` by
`2 + len ≥ 2`). -/
def parseDVBDescLoop (sec : Buf) (bound : Nat) :
    Nat → Nat → String → String → String × String
  | 0, _, title, desc => (title, desc)
  | fz + 1, descOffset, title, desc =>
    if descOffset < bound then
      let tag := byte sec descOffset
      let len := byte sec (descOffset + 1)
      let next :=
        if tag = 0x4D then
          let titleLen0 := byte sec (descOffset + 3)
          let titleStart0 := descOffset + 4
          let titleStart :=
            if byte sec titleStart0 < 0x20 then titleStart0 + 1
            else titleStart0
          let titleLen :=
            if byte sec titleStart0 < 0x20 then titleLen0 - 1
            else titleLen0
          (keepPrintable (bufToString
            (jsSlice sec titleStart (titleStart + titleLen))), desc)
        else if tag = 0x4E ∧ desc = "" then
          let textOffset0 := descOffset + 2
          if textOffset0 + 3 < descOffset + 2 + len then
            let textOffset := textOffset0 + 3
            let remainingLen := (descOffset + 2 + len) - textOffset
            if 0 < remainingLen then
              (title, jsTrim (bufToString
                (jsSlice sec textOffset (textOffset + remainingLen))))
            else (title, desc)
          else (title, desc)
        else (title, desc)
      parseDVBDescLoop sec bound fz (descOffset + 2 + len) next.1 next.2
    else (title, desc)

/-- epg.js:374-377 — per-event header fields. -/
def dvbEventMJD (sec : Buf) (evOffset : Nat) : Nat :=
  byte sec (evOffset + 2) * 256 + byte sec (evOffset + 3)

def dvbEventBCD (sec : Buf) (evOffset : Nat) : Nat :=
  byte sec (evOffset + 4) * 65536 + byte sec (evOffset + 5) * 256
    + byte sec (evOffset + 6)

def dvbEventDurBCD (sec : Buf) (evOffset : Nat) : Nat :=
  byte sec (evOffset + 7) * 65536 + byte sec (evOffset + 8) * 256
    + byte sec (evOffset + 9)

def dvbDescriptorsLength (sec : Buf) (evOffset : Nat) : Nat :=
  (byte sec (evOffset + 10) % 16) * 256 + byte sec (evOffset + 11)

/-- epg.js:381 — `startTime = this.parseDVBTime(startTimeMJD,
startTimeBCD)`. -/
def dvbEventStart (sec : Buf) (evOffset : Nat) : Int :=
  parseDVBTime (dvbEventMJD sec evOffset) (dvbEventBCD sec evOffset)

/-- epg.js:382-384 — the source's BCD duration digit decoding. -/
def dvbEventDurationSec (sec : Buf) (evOffset : Nat) : Nat :=
  let durationBCD := dvbEventDurBCD sec evOffset
  ((durationBCD / 65536) % 16) * 3600
    + ((durationBCD / 1048576) % 16) * 36000
    + ((durationBCD / 256) % 16) * 60
    + ((durationBCD / 4096) % 16) * 600
    + (durationBCD % 16) + ((durationBCD / 16) % 16) * 10

/-- epg.js:386 — `endTime = startTime + durationSec * 1000`. -/
def dvbEventEnd (sec : Buf) (evOffset : Nat) : Int :=
  dvbEventStart sec evOffset + (dvbEventDurationSec sec evOffset : Int) * 1000

/-- epg.js:388-414 — run the descriptor loop for this event. -/
def dvbEventText (sec : Buf) (evOffset : Nat) : String × String :=
  parseDVBDescLoop sec (evOffset + 12 + dvbDescriptorsLength sec evOffset)
    (dvbDescriptorsLength sec evOffset + 1) (evOffset + 12) "" ""

/-- Event loop of `parseDVBEIT` (epg.js:371-426): `while (evOffset <
sectionLength - 1)`, each event advancing by `12 + descriptorsLength ≥
12`; `fuel` bounds the iteration count. -/
def parseDVBEITLoop (sec : Buf) (serviceId freq sectionLength : Nat) :
    Nat → Nat → List DbOp
  | 0, _ => []
  | fz + 1, evOffset =>
    if evOffset < sectionLength - 1 then
      if sec.length < evOffset + 12 then []
      else if sec.length < evOffset + 12 + dvbDescriptorsLength sec evOffset
      then []
      else
        (if (dvbEventText sec evOffset).1 ≠ ""
            ∧ (0 : Int) < dvbEventStart sec evOffset then
          [DbOp.dvbUpsert freq (toString serviceId) (dvbEventStart sec evOffset)
            (dvbEventEnd sec evOffset) (dvbEventText sec evOffset).1
            (dvbEventText sec evOffset).2]
        else [])
          ++ parseDVBEITLoop sec serviceId freq sectionLength fz
              (evOffset + 12 + dvbDescriptorsLength sec evOffset)
    else []

/-- `parseDVBEIT(section, serviceId, onFound, freq)` (epg.js:366-430). -/
def parseDVBEIT (sec : Buf) (serviceId freq : Nat) : List DbOp :=
  let sectionLength := (byte sec 1 % 16) * 256 + byte sec 2
  parseDVBEITLoop sec serviceId freq sectionLength (sectionLength + 1) 14

/-- Channel loop of `parseATSCVCT` (epg.js:236-270): updates the source
map for each of `numChannels` entries (fixed 32-byte stride plus
per-entry descriptors). -/
def parseATSCVCTLoop (sec : Buf) (channels : List Channel)
    (freq sectionLength : Nat) :
    Nat → Nat → List (String × String) → List (String × String)
  | 0, _, m => m
  | remaining + 1, offset, m =>
    if sectionLength + 3 < offset + 32 then m
    else
      let programNumber := byte sec (offset + 24) * 256
        + byte sec (offset + 25)
      let sourceId := byte sec (offset + 28) * 256
        + byte sec (offset + 29)
      let m2 :=
        if sourceId ≠ 0 then
          let mk := mapKey freq sourceId
          let major := (byte sec (offset + 14) % 16) * 64
            + byte sec (offset + 15) / 4
          let minor := (byte sec (offset + 15) % 4) * 256
            + byte sec (offset + 16)
          let virtualChannel := toString major ++ "." ++ toString minor
          let channel :=
            match channels.find? (fun c : Channel =>
                c.frequency == freq && c.number == virtualChannel) with
            | some c => some c
            | none =>
              match channels.find? (fun c : Channel =>
                  c.frequency == freq
                    && c.serviceId == toString programNumber) with
              | some c => some c
              | none => channels.find? (fun c : Channel =>
                  c.number == virtualChannel)
          match channel with
          | some c =>
            if mapGet m mk ≠ some c.number then mapSet m mk c.number else m
          | none =>
            if (mapGet m mk).isNone then mapSet m mk virtualChannel else m
        else m
      let descriptorsLength := (byte sec (offset + 30) % 4) * 256
        + byte sec (offset + 31)
      parseATSCVCTLoop sec channels freq sectionLength remaining
        (offset + 32 + descriptorsLength) m2

/-- `parseATSCVCT(section, freq)` (epg.js:230-274): returns the updated
`sourceMap`. -/
def parseATSCVCT (sourceMap : List (String × String)) (channels : List Channel)
    (sec : Buf) (freq : Nat) : List (String × String) :=
  let sectionLength := (byte sec 1 % 16) * 256 + byte sec 2
  let numChannels := byte sec 9
  parseATSCVCTLoop sec channels freq sectionLength numChannels 10 sourceMap

/-- `parseEITSection(section, id, onFound, freq)` (epg.js:210-228).  The
`this.sourceMap.get(mapKey) || id.toString()` fallback is rendered with
`Option.getD`; stored map values are never the empty string, so JS
truthiness and option-emptiness coincide. -/
def parseEITSection (sourceMap : List (String × String)) (sec : Buf)
    (id freq : Nat) : List DbOp :=
  let tableId := byte sec 0
  let sectionLength := (byte sec 1 % 16) * 256 + byte sec 2
  if sec.length < sectionLength + 3 then []
  else if tableId = 0xCB then
    let serviceId := (mapGet sourceMap (mapKey freq id)).getD (toString id)
    parseATSCEIT sec serviceId id freq
  else if tableId = 0xCC then
    let serviceId := (mapGet sourceMap (mapKey freq id)).getD (toString id)
    parseATSCEET sec id serviceId freq
  else if 0x4E ≤ tableId ∧ tableId ≤ 0x6F then
    parseDVBEIT sec id freq
  else []

/-- `handleCompleteSection(section, pid, stats, tableCounts, sections,
freq)` (epg.js:196-208).  The `stats`/`tableCounts` diagnostics counters
and the unused `sections` map are omitted: they feed `debugLog` only. -/
def handleCompleteSection (st : EpgState) (channels : List Channel)
    (sec : Buf) (freq : Nat) : EpgState × List DbOp :=
  let tableId := byte sec 0
  if tableId = 0xC8 ∨ tableId = 0xC9 then
    ({ st with sourceMap := parseATSCVCT st.sourceMap channels sec freq },
      [])
  else if (0x4E ≤ tableId ∧ tableId ≤ 0x6F)
      ∨ (0xC7 ≤ tableId ∧ tableId ≤ 0xCF) then
    let id := byte sec 3 * 256 + byte sec 4
    (st, parseEITSection st.sourceMap sec id freq)
  else (st, [])

/-- Body of the TS-packet loop (epg.js:149-182) for the packet starting
at byte `i`: sync check, PID/PUSI/adaptation extraction, then PUSI-start
or continuation section reassembly and dispatch. -/
def processPacket (channels : List Channel) (freq : Nat) (b : Buf) (i : Nat)
    (st : EpgState) : EpgState × List DbOp :=
  if byte b i = 0x47 then
          let pid := (byte b (i + 1) % 32) * 256 + byte b (i + 2)
          let pusi := byte b (i + 1) / 64 % 2
          let adaptation := byte b (i + 3) / 16 % 4
          let payloadOffset :=
            if adaptation = 2 ∨ adaptation = 3 then 4 + byte b (i + 4) + 1
            else 4
          if 188 ≤ payloadOffset then (st, ([] : List DbOp))
          else
            let payload := jsSlice b (i + payloadOffset) (i + 188)
            if pusi = 1 then
              let pointer := byte payload 0
              let sectionStart := payload.drop (pointer + 1)
              if 3 ≤ sectionStart.length then
                let sectionLen := (byte sectionStart 1 % 16) * 256
                  + byte sectionStart 2
                let totalLen := sectionLen + 3
                if totalLen ≤ sectionStart.length then
                  handleCompleteSection st channels
                    (sectionStart.take totalLen) freq
                else
                  ({ st with sectionBuffers :=
                      (sbSet st.sectionBuffers pid ⟨sectionStart, totalLen⟩) },
                    [])
              else (st, [])
            else
              match sbGet st.sectionBuffers pid with
              | some acc =>
                let newBuf := acc.buffer ++ payload
                if acc.totalLength ≤ newBuf.length then
                  let hs := handleCompleteSection st channels
                    (newBuf.take acc.totalLength) freq
                  ({ hs.1 with sectionBuffers :=
                      (sbDelete hs.1.sectionBuffers pid) }, hs.2)
                else
                  ({ st with sectionBuffers :=
                      (sbSet st.sectionBuffers pid ⟨newBuf, acc.totalLength⟩) },
                    [])
              | none => (st, [])
  else (st, [])

/-- The TS-packet loop of `parseEIT` (epg.js:148):
`for (let i = 0; i < buffer.length - 188; i += 188)` — note the strict
bound `buffer.length - 188`, which leaves the final complete packet of an
exact-multiple buffer unvisited.  `fuel` bounds the iteration count
(`b.length` more than suffices since `i` advances by 188 each step). -/
def parseEITLoop (channels : List Channel) (freq : Nat) (b : Buf) :
    Nat → Nat → EpgState → List DbOp → EpgState × List DbOp
  | 0, _, st, ops => (st, ops)
  | fz + 1, i, st, ops =>
    if i < b.length - 188 then
      let step := processPacket channels freq b i st
      parseEITLoop channels freq b fz (i + 188) step.1 (ops ++ step.2)
    else (st, ops)

/-- `parseEIT(buffer, freq)` (epg.js:138-194): returns the final parser
state and, in program order, the `db.run` operations issued.  (The
returned `stats.count` of the source is the number of upsert operations
in the list; the PID/table diagnostic counters feed `debugLog` only and
are omitted.) -/
def parseEIT (st : EpgState) (channels : List Channel) (b : Buf)
    (freq : Nat) : EpgState × List DbOp :=
  parseEITLoop channels freq b b.length 0 st []

/-- One full parse pass as it acts on the program store. -/
def parseEITRun (st : EpgState) (store : Store) (channels : List Channel)
    (b : Buf) (freq : Nat) : EpgState × Store :=
  let r := parseEIT st channels b freq
  (r.1, applyOps store r.2)

/-! ## Concrete test vectors (encoder side, used by round-trip and
counterexample theorems) -/

/-- A minimal well-formed ATSC EIT section (table id 0xCB) carrying one
event: source id 7, event id 1, 32-bit GPS start `g`, 20-bit duration
`d`, one-string MSS title "A".  `section_length = 28`, total length 31. -/
def mkAtscEitSection (g d : Nat) : Buf :=
  [0xCB, 0, 28, 0, 7, 0, 0, 0, 0, 1, 0, 1,
   g / 16777216, g / 65536 % 256, g / 256 % 256, g % 256,
   d / 65536, d / 256 % 256, d % 256,
   9, 1, 0, 0, 0, 0, 0, 0, 1, 65, 0, 0]

/-- A 188-byte TS packet: sync byte, PUSI flag, 13-bit PID,
adaptation bits 01 (payload only), zero-padded payload. -/
def mkPacket (pid : Nat) (pusi : Bool) (payload : Buf) : Buf :=
  [0x47, (if pusi then 0x40 else 0) + pid / 256, pid % 256, 0x10]
    ++ payload ++ List.replicate (184 - payload.length) 0

/-- A minimal ATSC VCT section (table id 0xC8) with one channel entry:
major 15, minor 1, program number 2, source id 7.
`section_length = 39`, total length 42. -/
def vctSection : Buf :=
  [0xC8, 0, 39, 0, 0, 0, 0, 0, 0, 1]
    ++ [0, 0, 0, 0, 0, 0, 0, 0, 0, 0, 0, 0, 0, 0, 0, 60, 1,
        0, 0, 0, 0, 0, 0, 0, 0, 2, 0, 0, 0, 7, 0, 0]

def eitPacket : Buf := mkPacket 100 true (0 :: mkAtscEitSection 100 30)

def vctPacket : Buf := mkPacket 101 true (0 :: vctSection)

def dummyPacket : Buf := List.replicate 188 0

/-! ## C10: the TS loop never parses the final packet -/

lemma byte_append_left {p t : Buf} {n : Nat} (h : n < p.length) :
    byte (p ++ t) n = byte p n := by
  unfold byte
  rw [List.getD_eq_getElem?_getD, List.getD_eq_getElem?_getD,
    List.getElem?_append, if_pos h]

lemma jsSlice_append_left {p t : Buf} {a e : Nat} (he : e ≤ p.length) :
    jsSlice (p ++ t) a e = jsSlice p a e := by
  unfold jsSlice
  by_cases ha : a ≤ p.length
  · rw [List.drop_append_of_le_length ha, List.take_append_of_le_length]
    simpa using by omega
  · have h0 : e - a = 0 := by omega
    simp [h0]

lemma processPacket_ignores_tail (channels : List Channel) (freq : Nat)
    (p t1 t2 : Buf) (i : Nat) (st : EpgState) (hi : i + 188 ≤ p.length) :
    processPacket channels freq (p ++ t1) i st
      = processPacket channels freq (p ++ t2) i st := by
  have h0 : byte (p ++ t1) i = byte (p ++ t2) i := by
    rw [byte_append_left (by omega), byte_append_left (by omega)]
  have h1 : byte (p ++ t1) (i + 1) = byte (p ++ t2) (i + 1) := by
    rw [byte_append_left (by omega), byte_append_left (by omega)]
  have h2 : byte (p ++ t1) (i + 2) = byte (p ++ t2) (i + 2) := by
    rw [byte_append_left (by omega), byte_append_left (by omega)]
  have h3 : byte (p ++ t1) (i + 3) = byte (p ++ t2) (i + 3) := by
    rw [byte_append_left (by omega), byte_append_left (by omega)]
  have h4 : byte (p ++ t1) (i + 4) = byte (p ++ t2) (i + 4) := by
    rw [byte_append_left (by omega), byte_append_left (by omega)]
  have hsl : ∀ a, jsSlice (p ++ t1) (i + a) (i + 188)
      = jsSlice (p ++ t2) (i + a) (i + 188) := by
    intro a
    rw [jsSlice_append_left (by omega), jsSlice_append_left (by omega)]
  simp only [processPacket, h0, h1, h2, h3, h4, hsl]

lemma parseEITLoop_ignores_tail (channels : List Channel) (freq : Nat)
    (p t1 t2 : Buf) (h1 : t1.length = 188) (h2 : t2.length = 188)
    (hp : 188 ∣ p.length) :
    ∀ fuel i st ops, 188 ∣ i →
    parseEITLoop channels freq (p ++ t1) fuel i st ops
      = parseEITLoop channels freq (p ++ t2) fuel i st ops := by
  intro fuel
  induction fuel with
  | zero => intro i st ops _; rfl
  | succ fz ih =>
    intro i st ops hdvd
    have hlen1 : (p ++ t1).length = p.length + 188 := by simp [h1]
    have hlen2 : (p ++ t2).length = p.length + 188 := by simp [h2]
    show (if i < (p ++ t1).length - 188 then _ else _)
      = (if i < (p ++ t2).length - 188 then _ else _)
    rw [hlen1, hlen2]
    by_cases hi : i < p.length + 188 - 188
    · rw [if_pos hi, if_pos hi]
      have hi188 : i + 188 ≤ p.length := by
        obtain ⟨a, ha⟩ := hdvd
        obtain ⟨c, hc⟩ := hp
        omega
      rw [processPacket_ignores_tail channels freq p t1 t2 i st hi188]
      exact ih (i + 188) _ _ (by omega)
    · rw [if_neg hi, if_neg hi]

/-- C10 (confirmed).  The TS loop head
`for (let i = 0; i < buffer.length - 188; i += 188)` (epg.js:148) stops
before the final complete packet: on a buffer of exactly `188·k` bytes it
visits only packets `0 … k-2`, so the parse result is entirely
independent of the content of the last 188 bytes, and a section or event
carried only there is never delivered to the store. -/
theorem parseEIT_skips_final_packet (st : EpgState) (channels : List Channel)
    (freq k : Nat) (_hk : 1 ≤ k) (p t1 t2 : Buf)
    (hp : p.length = 188 * (k - 1)) (h1 : t1.length = 188)
    (h2 : t2.length = 188) :
    parseEIT st channels (p ++ t1) freq = parseEIT st channels (p ++ t2) freq := by
  unfold parseEIT
  have hlen : (p ++ t2).length = (p ++ t1).length := by simp [h1, h2]
  rw [hlen]
  exact parseEITLoop_ignores_tail channels freq p t1 t2 h1 h2 ⟨k - 1, hp⟩
    (p ++ t1).length 0 st [] ⟨0, rfl⟩

/-- Witness for `parseEIT_skips_final_packet`: a 376-byte capture whose
second (final) packet is either all-zero or a complete VCT section —
the parse results coincide, although the VCT would have updated the
source map had it been visited. -/
theorem parseEIT_skips_final_packet_witness :
    parseEIT ⟨[], []⟩ [] (eitPacket ++ dummyPacket) 500000000
      = parseEIT ⟨[], []⟩ [] (eitPacket ++ vctPacket) 500000000 :=
  parseEIT_skips_final_packet ⟨[], []⟩ [] 500000000 2 (by decide)
    eitPacket dummyPacket vctPacket (by decide) (by decide) (by decide)

/-! ## C7: ATSC EIT start/end time arithmetic -/

/-- C7 (confirmed).  For every 32-bit GPS-seconds value `g` and 20-bit
duration `d`, parsing an EIT section carrying that event yields exactly
`startTime = (g + 315964800 - 18) · 1000` and
`endTime = startTime + d · 1000`, in exact integer arithmetic
(epg.js:286-291; all intermediate values stay far below 2⁵³, so the JS
doubles are exact). -/
theorem atsc_eit_time_roundtrip (g d : Nat) (hg : g < 4294967296)
    (hd : d < 1048576) :
    parseATSCEIT (mkAtscEitSection g d) "7" 7 500000000
      = [DbOp.atscUpsert 500000000 "7" (((g : Int) + 315964800 - 18) * 1000)
          (((g : Int) + 315964800 - 18) * 1000 + (d : Int) * 1000)
          "A" "" 1 7] := by
  have hgps : atscEventGPS (mkAtscEitSection g d) 10
      = g / 16777216 * 16777216 + g / 65536 % 256 * 65536
        + g / 256 % 256 * 256 + g % 256 := rfl
  have hgps2 : atscEventGPS (mkAtscEitSection g d) 10 = g := by
    rw [hgps]; omega
  have hdur : atscEventDuration (mkAtscEitSection g d) 10
      = d / 65536 % 16 * 65536 + d / 256 % 256 * 256 + d % 256 := rfl
  have hdur2 : atscEventDuration (mkAtscEitSection g d) 10 = d := by
    rw [hdur]; omega
  have hstart : atscEventStart (mkAtscEitSection g d) 10
      = ((g : Int) + 315964800 - 18) * 1000 := by
    unfold atscEventStart
    rw [hgps2]
    have hsub : g + 315964800 - 18 = g + 315964782 := by omega
    rw [hsub]
    push_cast
    ring
  have hend : atscEventEnd (mkAtscEitSection g d) 10
      = ((g : Int) + 315964800 - 18) * 1000 + (d : Int) * 1000 := by
    unfold atscEventEnd
    rw [hstart, hdur2]
  have htitle : atscEventTitle (mkAtscEitSection g d) 10 = "A" := rfl
  have hid : atscEventId (mkAtscEitSection g d) 10 = 1 := rfl
  have hloop : parseATSCEIT (mkAtscEitSection g d) "7" 7 500000000
      = (if atscEventTitle (mkAtscEitSection g d) 10 ≠ ""
            ∧ (0 : Int) < atscEventStart (mkAtscEitSection g d) 10 then
          [DbOp.atscUpsert 500000000 "7" (atscEventStart (mkAtscEitSection g d) 10)
            (atscEventEnd (mkAtscEitSection g d) 10)
            (atscEventTitle (mkAtscEitSection g d) 10) ""
            (atscEventId (mkAtscEitSection g d) 10) 7]
        else []) ++ [] := rfl
  rw [hloop, htitle, hstart, hend, hid]
  have hpos : (0 : Int) < ((g : Int) + 315964800 - 18) * 1000 := by
    have : (0 : Int) ≤ (g : Int) := Int.natCast_nonneg g
    omega
  rw [if_pos ⟨by decide, hpos⟩]
  simp

/-- Witness for `atsc_eit_time_roundtrip` at `g = 10⁹`, `d = 1800`. -/
theorem atsc_eit_time_roundtrip_witness :
    parseATSCEIT (mkAtscEitSection 1000000000 1800) "7" 7 500000000
      = [DbOp.atscUpsert 500000000 "7"
          (((1000000000 : Int) + 315964800 - 18) * 1000)
          (((1000000000 : Int) + 315964800 - 18) * 1000 + (1800 : Int) * 1000)
          "A" "" 1 7] :=
  atsc_eit_time_roundtrip 1000000000 1800 (by decide) (by decide)

/-! ## C6: stored-row invariant of the upsert paths -/

/-- The invariant the spec claims for every stored row, weakened from
`start < end` to `start ≤ end` (see `program_row_counterexample`: a
zero-duration event gives `end = start`). -/
def RowInv (r : ProgramRow) : Prop :=
  r.title ≠ "" ∧ 0 < r.start_time ∧ r.start_time ≤ r.end_time

/-- The corresponding fact about an emitted operation's values. -/
def OpInv : DbOp → Prop
  | .atscUpsert _ _ s e t _ _ _ => t ≠ "" ∧ 0 < s ∧ s ≤ e
  | .dvbUpsert _ _ s e t _ => t ≠ "" ∧ 0 < s ∧ s ≤ e
  | .ettUpdate _ _ _ _ => True

instance (r : ProgramRow) : Decidable (RowInv r) := by
  unfold RowInv; infer_instance

instance (op : DbOp) : Decidable (OpInv op) := by
  cases op <;> simp only [OpInv] <;> infer_instance

lemma parseATSCEITLoop_opInv (sec : Buf) (vc : String) (sid freq sl : Nat) :
    ∀ remaining offset,
      ∀ op ∈ parseATSCEITLoop sec vc sid freq sl remaining offset, OpInv op := by
  intro remaining
  induction remaining with
  | zero => intro offset op hop; simp [parseATSCEITLoop] at hop
  | succ r ih =>
    intro offset op hop
    rw [parseATSCEITLoop] at hop
    by_cases hg : sl + 3 < offset + 10
    · rw [if_pos hg] at hop; simp at hop
    · rw [if_neg hg] at hop
      rcases List.mem_append.mp hop with h | h
      · by_cases hcond : atscEventTitle sec offset ≠ ""
            ∧ (0 : Int) < atscEventStart sec offset
        · rw [if_pos hcond] at h
          simp only [List.mem_singleton] at h
          subst h
          simp only [OpInv]
          refine ⟨hcond.1, hcond.2, ?_⟩
          show atscEventStart sec offset ≤ atscEventEnd sec offset
          unfold atscEventEnd
          have hdn : (0 : Int) ≤ (atscEventDuration sec offset : Int) :=
            Int.natCast_nonneg _
          omega
        · rw [if_neg hcond] at h; simp at h
      · exact ih _ op h

lemma parseDVBEITLoop_opInv (sec : Buf) (sid freq sl : Nat) :
    ∀ fuel evOffset,
      ∀ op ∈ parseDVBEITLoop sec sid freq sl fuel evOffset, OpInv op := by
  intro fuel
  induction fuel with
  | zero => intro evOffset op hop; simp [parseDVBEITLoop] at hop
  | succ fz ih =>
    intro evOffset op hop
    rw [parseDVBEITLoop] at hop
    split at hop
    · split at hop
      · simp at hop
      · split at hop
        · simp at hop
        · rcases List.mem_append.mp hop with h | h
          · split at h
            · rename_i hcond
              simp only [List.mem_singleton] at h
              subst h
              simp only [OpInv]
              refine ⟨hcond.1, hcond.2, ?_⟩
              show dvbEventStart sec evOffset ≤ dvbEventEnd sec evOffset
              unfold dvbEventEnd
              have hdn : (0 : Int) ≤ (dvbEventDurationSec sec evOffset : Int) :=
                Int.natCast_nonneg _
              omega
            · simp at h
          · exact ih _ op h
    · simp at hop

lemma applyOp_rowInv {store : Store} {op : DbOp}
    (hs : ∀ r ∈ store, RowInv r) (hop : OpInv op) :
    ∀ r ∈ applyOp store op, RowInv r := by
  intro r hr
  cases op with
  | atscUpsert f c s e t d ev si =>
    simp only [OpInv] at hop
    simp only [applyOp] at hr
    by_cases hc : store.any (fun r => rowKeyIs r f c s)
    · rw [if_pos hc] at hr
      obtain ⟨r0, hr0, heq⟩ := List.mem_map.mp hr
      by_cases hk : rowKeyIs r0 f c s
      · rw [if_pos hk] at heq
        subst heq
        have hstart : r0.start_time = s := by
          simp only [rowKeyIs, Bool.and_eq_true, beq_iff_eq] at hk
          exact hk.2
        exact ⟨hop.1, by simp [hstart, hop.2.1], by simp [hstart, hop.2.2]⟩
      · rw [if_neg hk] at heq
        subst heq
        exact hs r0 hr0
    · rw [if_neg hc] at hr
      rcases List.mem_append.mp hr with h | h
      · exact hs r h
      · simp only [List.mem_singleton] at h
        subst h
        exact ⟨hop.1, hop.2.1, hop.2.2⟩
  | dvbUpsert f c s e t d =>
    simp only [OpInv] at hop
    simp only [applyOp] at hr
    by_cases hc : store.any (fun r => rowKeyIs r f c s)
    · rw [if_pos hc] at hr
      obtain ⟨r0, hr0, heq⟩ := List.mem_map.mp hr
      by_cases hk : rowKeyIs r0 f c s
      · rw [if_pos hk] at heq
        subst heq
        have hstart : r0.start_time = s := by
          simp only [rowKeyIs, Bool.and_eq_true, beq_iff_eq] at hk
          exact hk.2
        exact ⟨hop.1, by simp [hstart, hop.2.1], by simp [hstart, hop.2.2]⟩
      · rw [if_neg hk] at heq
        subst heq
        exact hs r0 hr0
    · rw [if_neg hc] at hr
      rcases List.mem_append.mp hr with h | h
      · exact hs r h
      · simp only [List.mem_singleton] at h
        subst h
        exact ⟨hop.1, hop.2.1, hop.2.2⟩
  | ettUpdate d f c ev =>
    simp only [applyOp] at hr
    obtain ⟨r0, hr0, heq⟩ := List.mem_map.mp hr
    by_cases hk : (r0.frequency == f && r0.channel_service_id == c
        && r0.event_id == some ev) = true
    · rw [if_pos hk] at heq
      subst heq
      have := hs r0 hr0
      exact ⟨this.1, this.2.1, this.2.2⟩
    · rw [if_neg hk] at heq
      subst heq
      exact hs r0 hr0

lemma applyOps_rowInv {store : Store} {ops : List DbOp}
    (hs : ∀ r ∈ store, RowInv r) (hops : ∀ op ∈ ops, OpInv op) :
    ∀ r ∈ applyOps store ops, RowInv r := by
  induction ops generalizing store with
  | nil => simpa [applyOps] using hs
  | cons op rest ih =>
    have h1 := applyOp_rowInv hs (hops op (by simp))
    have := ih h1 (fun o ho => hops o (by simp [ho]))
    simpa [applyOps] using this

/-- C6 (amended).  Every operation emitted by the two upsert paths (ATSC
EIT, epg.js:319-325, and DVB EIT, epg.js:416-422) carries
`title ≠ ""`, `start_time > 0` and `end_time ≥ start_time`, and applying
any list of such operations (ETT description updates included) preserves
that invariant over every store row.  The spec's strict
`end_time > start_time` fails for a zero-duration event
(`end = start + 0·1000`, see `program_row_counterexample`); the code's
guard checks only `title && startTime > 0`. -/
theorem program_row_invariant (sec : Buf) (vc : String)
    (sid freq id : Nat) (store : Store) (ops : List DbOp)
    (hstore : ∀ r ∈ store, RowInv r) (hops : ∀ op ∈ ops, OpInv op) :
    (∀ op ∈ parseATSCEIT sec vc sid freq, OpInv op) ∧
    (∀ op ∈ parseDVBEIT sec id freq, OpInv op) ∧
    (∀ r ∈ applyOps store ops, RowInv r) :=
  ⟨fun op hop => parseATSCEITLoop_opInv sec vc sid freq _ _ _ op hop,
    fun op hop => by
      simp only [parseDVBEIT] at hop
      exact parseDVBEITLoop_opInv sec id freq _ _ _ op hop,
    applyOps_rowInv hstore hops⟩

/-- Witness for `program_row_invariant`: the single-event test section
applied to the empty store. -/
theorem program_row_invariant_witness :
    (∀ op ∈ parseATSCEIT (mkAtscEitSection 100 30) "7" 7 500000000, OpInv op) ∧
    (∀ r ∈ applyOps ([] : Store)
        (parseATSCEIT (mkAtscEitSection 100 30) "7" 7 500000000), RowInv r) :=
  ⟨(program_row_invariant (mkAtscEitSection 100 30) "7" 7 500000000 7 []
      (parseATSCEIT (mkAtscEitSection 100 30) "7" 7 500000000)
      (by decide) (by decide)).1,
    (program_row_invariant (mkAtscEitSection 100 30) "7" 7 500000000 7 []
      (parseATSCEIT (mkAtscEitSection 100 30) "7" 7 500000000)
      (by decide) (by decide)).2.2⟩

/-- C6 (counterexample).  An EIT event with duration 0 (GPS start 100,
title "A") passes the epg.js:319 guard and is stored with
`end_time = start_time`, refuting `end_time > start_time`. -/
theorem program_row_counterexample :
    applyOps ([] : Store) (parseATSCEIT (mkAtscEitSection 100 0) "7" 7 500000000)
      = [⟨500000000, "7", 315964882000, 315964882000, "A", "", some 1, some 7⟩] ∧
    ¬ (∀ r ∈ applyOps ([] : Store)
          (parseATSCEIT (mkAtscEitSection 100 0) "7" 7 500000000),
        r.start_time < r.end_time) :=
  ⟨by decide, by decide⟩

/-! ## C5: the ATSC EIT upsert never clobbers a description -/

def lookupKey (store : Store) (f : Nat) (c : String) (s : Int) :
    Option ProgramRow :=
  store.find? (fun r => rowKeyIs r f c s)

def DbOp.isAtscUpsert : DbOp → Bool
  | .atscUpsert _ _ _ _ _ _ _ _ => true
  | _ => false

lemma find?_pred_congr {α : Type} (l : List α) (p q : α → Bool)
    (h : ∀ a ∈ l, p a = q a) : l.find? p = l.find? q := by
  induction l with
  | nil => rfl
  | cons x xs ih =>
    rw [List.find?_cons, List.find?_cons, h x (by simp)]
    cases hq : q x with
    | true => rfl
    | false => exact ih (fun a ha => h a (by simp [ha]))

lemma parseATSCEITLoop_all_atsc (sec : Buf) (vc : String)
    (sid freq sl : Nat) :
    ∀ remaining offset,
      ∀ op ∈ parseATSCEITLoop sec vc sid freq sl remaining offset,
        op.isAtscUpsert = true := by
  intro remaining
  induction remaining with
  | zero => intro offset op hop; simp [parseATSCEITLoop] at hop
  | succ r ih =>
    intro offset op hop
    rw [parseATSCEITLoop] at hop
    by_cases hg : sl + 3 < offset + 10
    · rw [if_pos hg] at hop; simp at hop
    · rw [if_neg hg] at hop
      rcases List.mem_append.mp hop with h | h
      · by_cases hcond : atscEventTitle sec offset ≠ ""
            ∧ (0 : Int) < atscEventStart sec offset
        · rw [if_pos hcond] at h
          simp only [List.mem_singleton] at h
          subst h
          rfl
        · rw [if_neg hcond] at h; simp at h
      · exact ih _ op h

/-- C5 (confirmed).  (i) An ATSC EIT upsert arriving for an existing
`(frequency, channel, start_time)` key rewrites exactly title, end_time,
event_id and source_id — the row is the old row with only those four
fields replaced, so the stored description survives untouched (the SQL at
epg.js:323-324 lists no `description` in its `DO UPDATE SET`).  (ii) The
ATSC EIT path emits only such upserts; descriptions are written only by
the ETT path (epg.js:358).  Hence an EIT re-announcement carrying no text
never clobbers a previously written description. -/
theorem atsc_upsert_preserves_description (store : Store) (r : ProgramRow)
    (f : Nat) (c : String) (s stop : Int) (t d : String) (ev si : Nat)
    (hfind : lookupKey store f c s = some r) :
    lookupKey (applyOp store (.atscUpsert f c s stop t d ev si)) f c s
      = some { r with title := t, end_time := stop, event_id := some ev, source_id := some si } ∧
    (∀ sec vc sid freq, ∀ op ∈ parseATSCEIT sec vc sid freq,
      op.isAtscUpsert = true) := by
  unfold lookupKey at hfind
  have hkr : rowKeyIs r f c s = true := by
    have h := List.find?_some (p := fun x => rowKeyIs x f c s) hfind
    simpa using h
  constructor
  · have hany : store.any (fun x => rowKeyIs x f c s) = true := by
      rw [List.any_eq_true]
      exact ⟨r, List.mem_of_find?_eq_some hfind, hkr⟩
    unfold lookupKey
    simp only [applyOp]
    rw [if_pos hany]
    rw [List.find?_map]
    have hcongr : store.find? ((fun x => rowKeyIs x f c s) ∘
        (fun x => if rowKeyIs x f c s then
          { x with title := t, end_time := stop, event_id := some ev, source_id := some si } else x))
        = store.find? (fun x => rowKeyIs x f c s) := by
      apply find?_pred_congr
      intro a _
      by_cases hk : rowKeyIs a f c s
      · simp only [Function.comp]
        rw [if_pos hk]
        simp [rowKeyIs]
      · simp only [Function.comp]
        rw [if_neg hk]
    rw [hcongr, hfind]
    simp [hkr]
  · intro sec vc sid freq op hop
    exact parseATSCEITLoop_all_atsc sec vc sid freq _ _ _ op hop

/-- Witness for `atsc_upsert_preserves_description`: a store holding one
row with description "old text"; the upsert rewrites title/end/event/
source and keeps the description. -/
theorem atsc_upsert_preserves_description_witness :
    lookupKey (applyOp [⟨500000000, "7", 1000, 2000, "Old", "old text",
        some 1, some 7⟩]
      (.atscUpsert 500000000 "7" 1000 3000 "New" "" 2 7)) 500000000 "7" 1000
      = some ⟨500000000, "7", 1000, 3000, "New", "old text", some 2, some 7⟩ :=
  (atsc_upsert_preserves_description
    [⟨500000000, "7", 1000, 2000, "Old", "old text", some 1, some 7⟩]
    ⟨500000000, "7", 1000, 2000, "Old", "old text", some 1, some 7⟩
    500000000 "7" 1000 3000 "New" "" 2 7 (by decide)).1

/-! ## C8: re-parsing and the store

`applyOps` is analysed through a normal form: each upsert op acts on the
(at most one) row matching its `(frequency, channel, start_time)` key —
updating a fixed field subset when present, appending a fresh row
otherwise.  The chain combinators below compute the per-key net effect of
an operation list. -/

def DbOp.isEttUpdate : DbOp → Bool
  | .ettUpdate _ _ _ _ => true
  | _ => false

def DbOp.keyF : DbOp → Nat
  | .atscUpsert f _ _ _ _ _ _ _ => f
  | .dvbUpsert f _ _ _ _ _ => f
  | .ettUpdate _ f _ _ => f

def DbOp.keyC : DbOp → String
  | .atscUpsert _ c _ _ _ _ _ _ => c
  | .dvbUpsert _ c _ _ _ _ => c
  | .ettUpdate _ _ c _ => c

def DbOp.keyS : DbOp → Int
  | .atscUpsert _ _ s _ _ _ _ _ => s
  | .dvbUpsert _ _ s _ _ _ => s
  | .ettUpdate _ _ _ _ => 0

/-- The `DO UPDATE SET` half of an upsert. -/
def upsertTouch (u : DbOp) (r : ProgramRow) : ProgramRow :=
  match u with
  | .atscUpsert _ _ _ e t _ ev si =>
    { r with title := t, end_time := e, event_id := some ev, source_id := some si }
  | .dvbUpsert _ _ _ e t d =>
    { r with title := t, end_time := e, description := d }
  | .ettUpdate _ _ _ _ => r

/-- The `INSERT` half of an upsert. -/
def upsertInit : DbOp → ProgramRow
  | .atscUpsert f c s e t d ev si => ⟨f, c, s, e, t, d, some ev, some si⟩
  | .dvbUpsert f c s e t d => ⟨f, c, s, e, t, d, none, none⟩
  | .ettUpdate d f c _ => ⟨f, c, 0, 0, "", d, none, none⟩

/-- Does op `u` target key `(f, c, s)`?  (Oriented to match `rowKeyIs`.) -/
def opKeyIs (u : DbOp) (f : Nat) (c : String) (s : Int) : Bool :=
  !u.isEttUpdate && (f == u.keyF && c == u.keyC && s == u.keyS)

def opsOnKey (L : List DbOp) (f : Nat) (c : String) (s : Int) : List DbOp :=
  L.filter (fun u => opKeyIs u f c s)

def containsKey (store : Store) (f : Nat) (c : String) (s : Int) : Bool :=
  store.any (fun r => rowKeyIs r f c s)

/-- Net effect on each field of running a chain of update halves. -/
def chainTitle : List DbOp → String → String
  | [], t => t
  | .atscUpsert _ _ _ _ t' _ _ _ :: C, _ => chainTitle C t'
  | .dvbUpsert _ _ _ _ t' _ :: C, _ => chainTitle C t'
  | .ettUpdate _ _ _ _ :: C, t => chainTitle C t

def chainEnd : List DbOp → Int → Int
  | [], e => e
  | .atscUpsert _ _ _ e' _ _ _ _ :: C, _ => chainEnd C e'
  | .dvbUpsert _ _ _ e' _ _ :: C, _ => chainEnd C e'
  | .ettUpdate _ _ _ _ :: C, e => chainEnd C e

def chainDesc : List DbOp → String → String
  | [], d => d
  | .atscUpsert _ _ _ _ _ _ _ _ :: C, d => chainDesc C d
  | .dvbUpsert _ _ _ _ _ d' :: C, _ => chainDesc C d'
  | .ettUpdate _ _ _ _ :: C, d => chainDesc C d

def chainEvent : List DbOp → Option Nat → Option Nat
  | [], ev => ev
  | .atscUpsert _ _ _ _ _ _ ev' _ :: C, _ => chainEvent C (some ev')
  | .dvbUpsert _ _ _ _ _ _ :: C, ev => chainEvent C ev
  | .ettUpdate _ _ _ _ :: C, ev => chainEvent C ev

def chainSource : List DbOp → Option Nat → Option Nat
  | [], si => si
  | .atscUpsert _ _ _ _ _ _ _ si' :: C, _ => chainSource C (some si')
  | .dvbUpsert _ _ _ _ _ _ :: C, si => chainSource C si
  | .ettUpdate _ _ _ _ :: C, si => chainSource C si

def chainTouch : List DbOp → ProgramRow → ProgramRow
  | [], r => r
  | u :: C, r => chainTouch C (upsertTouch u r)

/-- The rows appended by `L` whose keys are not already present (`K` is
the predicate of already-present keys); each appended row carries the net
effect of the later operations on its key. -/
def newSeg : (Nat → String → Int → Bool) → List DbOp → Store
  | _, [] => []
  | K, u :: L' =>
    if u.isEttUpdate then newSeg K L'
    else if K u.keyF u.keyC u.keyS then newSeg K L'
    else
      chainTouch (opsOnKey L' u.keyF u.keyC u.keyS) (upsertInit u)
        :: newSeg (fun f c s => K f c s
            || (f == u.keyF && c == u.keyC && s == u.keyS)) L'

lemma rowKeyIs_upsertTouch (u : DbOp) (r : ProgramRow) (f : Nat) (c : String)
    (s : Int) : rowKeyIs (upsertTouch u r) f c s = rowKeyIs r f c s := by
  cases u <;> rfl

lemma rowKeyIs_chainTouch (C : List DbOp) (r : ProgramRow) (f : Nat)
    (c : String) (s : Int) :
    rowKeyIs (chainTouch C r) f c s = rowKeyIs r f c s := by
  induction C generalizing r with
  | nil => rfl
  | cons u C ih => rw [chainTouch, ih, rowKeyIs_upsertTouch]

lemma chainTouch_eq (C : List DbOp) (r : ProgramRow) :
    chainTouch C r = ⟨r.frequency, r.channel_service_id, r.start_time,
      chainEnd C r.end_time, chainTitle C r.title, chainDesc C r.description,
      chainEvent C r.event_id, chainSource C r.source_id⟩ := by
  induction C generalizing r with
  | nil => rfl
  | cons u C ih =>
    rw [chainTouch, ih]
    cases u <;> rfl

lemma chainTitle_idem (C : List DbOp) (t : String) :
    chainTitle C (chainTitle C t) = chainTitle C t := by
  induction C generalizing t with
  | nil => rfl
  | cons u C ih => cases u <;> simp only [chainTitle] <;> exact ih _

lemma chainEnd_idem (C : List DbOp) (e : Int) :
    chainEnd C (chainEnd C e) = chainEnd C e := by
  induction C generalizing e with
  | nil => rfl
  | cons u C ih => cases u <;> simp only [chainEnd] <;> exact ih _

lemma chainDesc_idem (C : List DbOp) (d : String) :
    chainDesc C (chainDesc C d) = chainDesc C d := by
  induction C generalizing d with
  | nil => rfl
  | cons u C ih => cases u <;> simp only [chainDesc] <;> exact ih _

lemma chainEvent_idem (C : List DbOp) (ev : Option Nat) :
    chainEvent C (chainEvent C ev) = chainEvent C ev := by
  induction C generalizing ev with
  | nil => rfl
  | cons u C ih => cases u <;> simp only [chainEvent] <;> exact ih _

lemma chainSource_idem (C : List DbOp) (si : Option Nat) :
    chainSource C (chainSource C si) = chainSource C si := by
  induction C generalizing si with
  | nil => rfl
  | cons u C ih => cases u <;> simp only [chainSource] <;> exact ih _

lemma chainTouch_idem (C : List DbOp) (r : ProgramRow) :
    chainTouch C (chainTouch C r) = chainTouch C r := by
  rw [chainTouch_eq C r, chainTouch_eq C _]
  simp [chainTitle_idem, chainEnd_idem, chainDesc_idem, chainEvent_idem,
    chainSource_idem]

lemma upsertTouch_upsertInit (u : DbOp) :
    upsertTouch u (upsertInit u) = upsertInit u := by
  cases u <;> rfl

lemma chainTouch_reinit (u : DbOp) (C : List DbOp) :
    chainTouch (u :: C) (chainTouch C (upsertInit u))
      = chainTouch C (upsertInit u) := by
  have h : chainTouch C (upsertInit u) = chainTouch (u :: C) (upsertInit u) := by
    rw [chainTouch, upsertTouch_upsertInit]
  rw [h]
  exact chainTouch_idem _ _

lemma applyOp_upsert_eq (u : DbOp) (hu : u.isEttUpdate = false) (store : Store) :
    applyOp store u
      = if containsKey store u.keyF u.keyC u.keyS then
          store.map (fun r => if rowKeyIs r u.keyF u.keyC u.keyS
            then upsertTouch u r else r)
        else store ++ [upsertInit u] := by
  cases u with
  | atscUpsert f c s e t d ev si => rfl
  | dvbUpsert f c s e t d => rfl
  | ettUpdate d f c ev => exact absurd hu (by simp [DbOp.isEttUpdate])

lemma beq_swap {α : Type} [BEq α] [LawfulBEq α] (a b : α) :
    (a == b) = (b == a) := by
  by_cases h : a = b
  · subst h; rfl
  · rw [beq_eq_false_iff_ne.mpr h, beq_eq_false_iff_ne.mpr (Ne.symm h)]

lemma any_pred_congr {α : Type} (l : List α) (p q : α → Bool)
    (h : ∀ a ∈ l, p a = q a) : l.any p = l.any q := by
  induction l with
  | nil => rfl
  | cons x xs ih =>
    simp only [List.any_cons, h x (by simp)]
    rw [ih (fun a ha => h a (by simp [ha]))]

lemma map_mem_congr {α β : Type} (l : List α) (f g : α → β)
    (h : ∀ a ∈ l, f a = g a) : l.map f = l.map g := by
  induction l with
  | nil => rfl
  | cons x xs ih =>
    simp only [List.map_cons, h x (by simp)]
    rw [ih (fun a ha => h a (by simp [ha]))]

lemma upsertTouch_frequency (u : DbOp) (r : ProgramRow) :
    (upsertTouch u r).frequency = r.frequency := by cases u <;> rfl

lemma upsertTouch_chan (u : DbOp) (r : ProgramRow) :
    (upsertTouch u r).channel_service_id = r.channel_service_id := by
  cases u <;> rfl

lemma upsertTouch_start (u : DbOp) (r : ProgramRow) :
    (upsertTouch u r).start_time = r.start_time := by cases u <;> rfl

lemma upsertInit_frequency (u : DbOp) : (upsertInit u).frequency = u.keyF := by
  cases u <;> rfl

lemma upsertInit_chan (u : DbOp) :
    (upsertInit u).channel_service_id = u.keyC := by cases u <;> rfl

lemma upsertInit_start (u : DbOp) : (upsertInit u).start_time = u.keyS := by
  cases u <;> rfl

lemma opsOnKey_cons (u : DbOp) (L : List DbOp) (f : Nat) (c : String)
    (s : Int) :
    opsOnKey (u :: L) f c s
      = if opKeyIs u f c s then u :: opsOnKey L f c s else opsOnKey L f c s := by
  simp [opsOnKey, List.filter_cons]

lemma opKeyIs_row (u : DbOp) (hu : u.isEttUpdate = false) (r : ProgramRow) :
    opKeyIs u r.frequency r.channel_service_id r.start_time
      = rowKeyIs r u.keyF u.keyC u.keyS := by
  cases u with
  | atscUpsert f c s e t d ev si => rfl
  | dvbUpsert f c s e t d => rfl
  | ettUpdate d f c ev => exact absurd hu (by simp [DbOp.isEttUpdate])

lemma rowKeyIs_upsertInit (u : DbOp) (f : Nat) (c : String) (s : Int) :
    rowKeyIs (upsertInit u) f c s
      = (u.keyF == f && u.keyC == c && u.keyS == s) := by
  cases u <;> rfl

/-- Normal form of a fold of key-targeted upserts: every original row
receives the chain of operations on its key, and the remaining operations
append fresh rows in first-occurrence order. -/
lemma applyOps_nf (L : List DbOp) (hall : ∀ u ∈ L, u.isEttUpdate = false) :
    ∀ s : Store,
    applyOps s L
      = s.map (fun r => chainTouch
            (opsOnKey L r.frequency r.channel_service_id r.start_time) r)
        ++ newSeg (fun f c s' => containsKey s f c s') L := by
  induction L with
  | nil =>
    intro s
    show s = _
    rw [newSeg]
    have hmap : s.map (fun r => chainTouch
        (opsOnKey [] r.frequency r.channel_service_id r.start_time) r)
        = s.map (fun r => r) :=
      map_mem_congr s _ _ (fun a _ => rfl)
    rw [hmap]
    simp
  | cons u L' ih =>
    intro s
    have hu : u.isEttUpdate = false := hall u (by simp)
    have hall' : ∀ v ∈ L', v.isEttUpdate = false :=
      fun v hv => hall v (by simp [hv])
    show applyOps (applyOp s u) L' = _
    rw [applyOp_upsert_eq u hu s]
    by_cases hk : containsKey s u.keyF u.keyC u.keyS = true
    · rw [if_pos hk, ih hall']
      have hmap : (s.map (fun r => if rowKeyIs r u.keyF u.keyC u.keyS
            then upsertTouch u r else r)).map
            (fun r => chainTouch
              (opsOnKey L' r.frequency r.channel_service_id r.start_time) r)
          = s.map (fun r => chainTouch
              (opsOnKey (u :: L') r.frequency r.channel_service_id
                r.start_time) r) := by
        rw [List.map_map]
        apply map_mem_congr
        intro r _
        simp only [Function.comp]
        by_cases hm : rowKeyIs r u.keyF u.keyC u.keyS = true
        · rw [if_pos hm]
          rw [opsOnKey_cons, if_pos (by rw [opKeyIs_row u hu r]; exact hm)]
          rw [chainTouch]
          congr 1
          rw [upsertTouch_frequency, upsertTouch_chan, upsertTouch_start]
        · rw [if_neg hm]
          rw [opsOnKey_cons,
            if_neg (by rw [opKeyIs_row u hu r]; simpa using hm)]
      have hseg : (fun f c s' => containsKey
            (s.map (fun r => if rowKeyIs r u.keyF u.keyC u.keyS
              then upsertTouch u r else r)) f c s')
          = (fun f c s' => containsKey s f c s') := by
        funext f c s'
        unfold containsKey
        rw [List.any_map]
        apply any_pred_congr
        intro a _
        simp only [Function.comp]
        by_cases hm : rowKeyIs a u.keyF u.keyC u.keyS = true
        · rw [if_pos hm, rowKeyIs_upsertTouch]
        · rw [if_neg hm]
      rw [hmap, hseg]
      congr 1
      rw [newSeg]
      simp [hu, hk]
    · rw [if_neg hk, ih hall']
      rw [List.map_append]
      have hrows : ∀ r ∈ s, rowKeyIs r u.keyF u.keyC u.keyS = false := by
        intro r hr
        by_contra hcon
        have : containsKey s u.keyF u.keyC u.keyS = true := by
          unfold containsKey
          rw [List.any_eq_true]
          exact ⟨r, hr, by simpa using hcon⟩
        exact hk this
      have hmap : s.map (fun r => chainTouch
            (opsOnKey L' r.frequency r.channel_service_id r.start_time) r)
          = s.map (fun r => chainTouch
            (opsOnKey (u :: L') r.frequency r.channel_service_id
              r.start_time) r) := by
        apply map_mem_congr
        intro r hr
        rw [opsOnKey_cons,
          if_neg (by rw [opKeyIs_row u hu r]; simp [hrows r hr])]
      have hinit : [upsertInit u].map (fun r => chainTouch
            (opsOnKey L' r.frequency r.channel_service_id r.start_time) r)
          = [chainTouch (opsOnKey L' u.keyF u.keyC u.keyS) (upsertInit u)] := by
        simp only [List.map_cons, List.map_nil]
        rw [upsertInit_frequency, upsertInit_chan, upsertInit_start]
      have hseg : (fun f c s' => containsKey (s ++ [upsertInit u]) f c s')
          = (fun f c s' => containsKey s f c s'
              || (f == u.keyF && c == u.keyC && s' == u.keyS)) := by
        funext f c s'
        unfold containsKey
        rw [List.any_append]
        simp only [List.any_cons, List.any_nil, Bool.or_false]
        rw [rowKeyIs_upsertInit]
        rw [beq_swap u.keyF f, beq_swap u.keyC c, beq_swap u.keyS s']
      rw [hmap, hinit, hseg]
      simp only [newSeg, hu, Bool.false_eq_true, if_false]
      rw [if_neg hk]
      simp [List.append_assoc]

lemma chainTouch_frequency (C : List DbOp) (r : ProgramRow) :
    (chainTouch C r).frequency = r.frequency := by
  induction C generalizing r with
  | nil => rfl
  | cons u C ih => rw [chainTouch, ih, upsertTouch_frequency]

lemma chainTouch_chan (C : List DbOp) (r : ProgramRow) :
    (chainTouch C r).channel_service_id = r.channel_service_id := by
  induction C generalizing r with
  | nil => rfl
  | cons u C ih => rw [chainTouch, ih, upsertTouch_chan]

lemma chainTouch_start (C : List DbOp) (r : ProgramRow) :
    (chainTouch C r).start_time = r.start_time := by
  induction C generalizing r with
  | nil => rfl
  | cons u C ih => rw [chainTouch, ih, upsertTouch_start]

lemma containsKey_applyOp (s : Store) (u : DbOp) (f : Nat) (c : String)
    (s' : Int) (h : containsKey s f c s' = true) :
    containsKey (applyOp s u) f c s' = true := by
  cases hett : u.isEttUpdate
  · rw [applyOp_upsert_eq u hett]
    by_cases hc : containsKey s u.keyF u.keyC u.keyS = true
    · rw [if_pos hc]
      unfold containsKey at h ⊢
      rw [List.any_map]
      have heq : s.any ((fun r => rowKeyIs r f c s') ∘
          (fun r => if rowKeyIs r u.keyF u.keyC u.keyS then upsertTouch u r
            else r)) = s.any (fun r => rowKeyIs r f c s') := by
        apply any_pred_congr
        intro a _
        simp only [Function.comp]
        by_cases hm : rowKeyIs a u.keyF u.keyC u.keyS = true
        · rw [if_pos hm, rowKeyIs_upsertTouch]
        · rw [if_neg hm]
      rw [heq]
      exact h
    · rw [if_neg hc]
      unfold containsKey at h ⊢
      rw [List.any_append]
      simp [h]
  · cases u with
    | atscUpsert f0 c0 s0 e t d ev si => simp [DbOp.isEttUpdate] at hett
    | dvbUpsert f0 c0 s0 e t d => simp [DbOp.isEttUpdate] at hett
    | ettUpdate d f0 c0 ev =>
      unfold containsKey at h ⊢
      simp only [applyOp]
      rw [List.any_map]
      have heq : s.any ((fun r => rowKeyIs r f c s') ∘
          (fun r => if r.frequency == f0 && r.channel_service_id == c0
              && r.event_id == some ev
            then { r with description := d } else r))
          = s.any (fun r => rowKeyIs r f c s') := by
        apply any_pred_congr
        intro a _
        simp only [Function.comp]
        by_cases hm : (a.frequency == f0 && a.channel_service_id == c0
            && a.event_id == some ev) = true
        · rw [if_pos hm]
          rfl
        · rw [if_neg hm]
      rw [heq]
      exact h

lemma containsKey_applyOp_self (s : Store) (u : DbOp)
    (hu : u.isEttUpdate = false) :
    containsKey (applyOp s u) u.keyF u.keyC u.keyS = true := by
  rw [applyOp_upsert_eq u hu]
  by_cases hc : containsKey s u.keyF u.keyC u.keyS = true
  · rw [if_pos hc]
    unfold containsKey at hc ⊢
    rw [List.any_map]
    have heq : s.any ((fun r => rowKeyIs r u.keyF u.keyC u.keyS) ∘
        (fun r => if rowKeyIs r u.keyF u.keyC u.keyS then upsertTouch u r
          else r)) = s.any (fun r => rowKeyIs r u.keyF u.keyC u.keyS) := by
      apply any_pred_congr
      intro a _
      simp only [Function.comp]
      by_cases hm : rowKeyIs a u.keyF u.keyC u.keyS = true
      · rw [if_pos hm, rowKeyIs_upsertTouch]
      · rw [if_neg hm]
    rw [heq]
    exact hc
  · rw [if_neg hc]
    unfold containsKey
    rw [List.any_append]
    simp only [List.any_cons, List.any_nil, Bool.or_false]
    rw [rowKeyIs_upsertInit]
    simp

lemma containsKey_applyOps (L : List DbOp) :
    ∀ (s : Store) (f : Nat) (c : String) (s' : Int),
    containsKey s f c s' = true → containsKey (applyOps s L) f c s' = true := by
  induction L with
  | nil => intro s f c s' h; exact h
  | cons u L' ih =>
    intro s f c s' h
    exact ih (applyOp s u) f c s' (containsKey_applyOp s u f c s' h)

lemma containsKey_applyOps_of_mem (L : List DbOp)
    (hall : ∀ u ∈ L, u.isEttUpdate = false) :
    ∀ (s : Store) (u : DbOp), u ∈ L →
    containsKey (applyOps s L) u.keyF u.keyC u.keyS = true := by
  induction L with
  | nil => intro s u hu; simp at hu
  | cons v L' ih =>
    intro s u hu
    have hv : v.isEttUpdate = false := hall v (by simp)
    rcases List.mem_cons.mp hu with heq | hmem
    · subst heq
      exact containsKey_applyOps L' (applyOp s u) _ _ _
        (containsKey_applyOp_self s u hv)
    · exact ih (fun w hw => hall w (by simp [hw])) (applyOp s v) u hmem

lemma newSeg_eq_nil (L : List DbOp) :
    ∀ K : Nat → String → Int → Bool,
    (∀ u ∈ L, u.isEttUpdate = false → K u.keyF u.keyC u.keyS = true) →
    newSeg K L = [] := by
  induction L with
  | nil => intro K _; rfl
  | cons u L' ih =>
    intro K hK
    rw [newSeg]
    cases hett : u.isEttUpdate
    · rw [if_neg (by simp [hett])]
      rw [if_pos (hK u (by simp) hett)]
      exact ih K (fun v hv => hK v (by simp [hv]))
    · rw [if_pos (by rfl)]
      exact ih K (fun v hv => hK v (by simp [hv]))

lemma newSeg_key_false (L : List DbOp) :
    ∀ K : Nat → String → Int → Bool, ∀ r ∈ newSeg K L,
    K r.frequency r.channel_service_id r.start_time = false := by
  induction L with
  | nil => intro K r hr; simp [newSeg] at hr
  | cons u L' ih =>
    intro K r hr
    rw [newSeg] at hr
    cases hett : u.isEttUpdate
    · rw [if_neg (by simp [hett])] at hr
      by_cases hK : K u.keyF u.keyC u.keyS = true
      · rw [if_pos hK] at hr
        exact ih K r hr
      · rw [if_neg hK] at hr
        rcases List.mem_cons.mp hr with heq | hmem
        · subst heq
          rw [chainTouch_frequency, chainTouch_chan, chainTouch_start,
            upsertInit_frequency, upsertInit_chan, upsertInit_start]
          simpa using hK
        · have := ih _ r hmem
          simp only [Bool.or_eq_false_iff] at this
          exact this.1
    · rw [if_pos hett] at hr
      exact ih K r hr

lemma newSeg_fix (L : List DbOp) (hall : ∀ u ∈ L, u.isEttUpdate = false) :
    ∀ K : Nat → String → Int → Bool, ∀ r ∈ newSeg K L,
    chainTouch (opsOnKey L r.frequency r.channel_service_id r.start_time) r
      = r := by
  induction L with
  | nil => intro K r hr; simp [newSeg] at hr
  | cons u L' ih =>
    intro K r hr
    have hu : u.isEttUpdate = false := hall u (by simp)
    have hall' : ∀ v ∈ L', v.isEttUpdate = false :=
      fun v hv => hall v (by simp [hv])
    rw [newSeg] at hr
    rw [if_neg (by simp [hu])] at hr
    by_cases hK : K u.keyF u.keyC u.keyS = true
    · rw [if_pos hK] at hr
      have hkf := newSeg_key_false L' K r hr
      have hne : opKeyIs u r.frequency r.channel_service_id r.start_time
          = false := by
        by_contra hcon
        simp only [Bool.not_eq_false] at hcon
        simp only [opKeyIs, hu, Bool.not_false, Bool.true_and,
          Bool.and_eq_true, beq_iff_eq] at hcon
        rw [hcon.1.1, hcon.1.2, hcon.2] at hkf
        rw [hK] at hkf
        exact absurd hkf (by simp)
      rw [opsOnKey_cons, if_neg (by simp [hne])]
      exact ih hall' K r hr
    · rw [if_neg hK] at hr
      rcases List.mem_cons.mp hr with heq | hmem
      · subst heq
        rw [chainTouch_frequency, chainTouch_chan, chainTouch_start,
          upsertInit_frequency, upsertInit_chan, upsertInit_start]
        rw [opsOnKey_cons, if_pos (by simp [opKeyIs, hu])]
        exact chainTouch_reinit u _
      · have hkf := newSeg_key_false L' _ r hmem
        simp only [Bool.or_eq_false_iff] at hkf
        have hne : opKeyIs u r.frequency r.channel_service_id r.start_time
            = false := by
          simp only [opKeyIs, hu, Bool.not_false, Bool.true_and]
          exact hkf.2
        rw [opsOnKey_cons, if_neg (by simp [hne])]
        exact ih hall' _ r hmem

/-- Replaying a list of upsert operations over the store they produced is
a no-op. -/
lemma applyOps_replay (L : List DbOp)
    (hall : ∀ u ∈ L, u.isEttUpdate = false) (s : Store) :
    applyOps (applyOps s L) L = applyOps s L := by
  have hnf := applyOps_nf L hall
  rw [hnf (applyOps s L)]
  have hseg : newSeg (fun f c s' => containsKey (applyOps s L) f c s') L
      = [] :=
    newSeg_eq_nil L _ (fun u hu _ => containsKey_applyOps_of_mem L hall s u hu)
  rw [hseg, List.append_nil]
  rw [hnf s, List.map_append]
  have hmap : (s.map (fun r => chainTouch
        (opsOnKey L r.frequency r.channel_service_id r.start_time) r)).map
        (fun r => chainTouch
          (opsOnKey L r.frequency r.channel_service_id r.start_time) r)
      = s.map (fun r => chainTouch
        (opsOnKey L r.frequency r.channel_service_id r.start_time) r) := by
    rw [List.map_map]
    apply map_mem_congr
    intro r _
    simp only [Function.comp]
    rw [chainTouch_frequency, chainTouch_chan, chainTouch_start]
    exact chainTouch_idem _ r
  have hns : (newSeg (fun f c s' => containsKey s f c s') L).map
        (fun r => chainTouch
          (opsOnKey L r.frequency r.channel_service_id r.start_time) r)
      = newSeg (fun f c s' => containsKey s f c s') L := by
    have hid : (newSeg (fun f c s' => containsKey s f c s') L).map
          (fun r => chainTouch
            (opsOnKey L r.frequency r.channel_service_id r.start_time) r)
        = (newSeg (fun f c s' => containsKey s f c s') L).map (fun r => r) :=
      map_mem_congr _ _ _ (fun r hr => newSeg_fix L hall _ r hr)
    rw [hid]
    simp
  rw [hmap, hns]

/-- C8 (amended).  Re-running a parse pass leaves the store unchanged
provided the first pass (i) left the parser's persistent state — the
`sourceMap` and the per-PID `sectionBuffers` — exactly as it found it,
and (ii) issued no ETT description update.  Both hypotheses hold when
re-scanning after a converged scan.  Without them the claim is false:
`parse_reparse_counterexample` re-parses a capture whose VCT section maps
source 7 to channel "15.1" only after its EIT section was stored under
the raw id "7", so the second pass inserts a second row under "15.1". -/
theorem parse_twice_store_fixed (st : EpgState) (channels : List Channel)
    (b : Buf) (freq : Nat) (store : Store)
    (hstate : (parseEIT st channels b freq).1 = st)
    (hnoett : ∀ op ∈ (parseEIT st channels b freq).2, op.isEttUpdate = false) :
    (parseEITRun (parseEITRun st store channels b freq).1
        (parseEITRun st store channels b freq).2 channels b freq).2
      = (parseEITRun st store channels b freq).2 := by
  simp only [parseEITRun]
  rw [hstate]
  exact applyOps_replay _ hnoett store

/-- Witness for `parse_twice_store_fixed`: re-parsing a two-packet
capture holding one complete EIT section. -/
theorem parse_twice_store_fixed_witness :
    (parseEITRun (parseEITRun ⟨[], []⟩ [] []
          (eitPacket ++ dummyPacket) 500000000).1
        (parseEITRun ⟨[], []⟩ [] [] (eitPacket ++ dummyPacket) 500000000).2
        [] (eitPacket ++ dummyPacket) 500000000).2
      = (parseEITRun ⟨[], []⟩ [] [] (eitPacket ++ dummyPacket) 500000000).2 :=
  parse_twice_store_fixed ⟨[], []⟩ [] (eitPacket ++ dummyPacket) 500000000 []
    (by decide) (by decide)

/-- C8 (counterexample).  A capture containing an EIT section for source
id 7 followed by a VCT section mapping `(500000000, 7) → "15.1"`: the
first pass stores the event under channel "7" and then learns the
mapping; the second pass resolves the same EIT through the now-populated
`sourceMap` and inserts a second row under "15.1".  The store after
parsing twice differs from the store after parsing once, refuting the
unconditional idempotence claim. -/
theorem parse_reparse_counterexample :
    ¬ ((parseEITRun (parseEITRun ⟨[], []⟩ [] []
          (eitPacket ++ vctPacket ++ dummyPacket) 500000000).1
        (parseEITRun ⟨[], []⟩ [] [] (eitPacket ++ vctPacket ++ dummyPacket)
          500000000).2
        [] (eitPacket ++ vctPacket ++ dummyPacket) 500000000).2
      = (parseEITRun ⟨[], []⟩ [] [] (eitPacket ++ vctPacket ++ dummyPacket)
          500000000).2) := by
  decide

end JFT
